import Mathlib

/-!
Verification of the reference-integrity and cross-artifact consistency checker
of the CANONIC documentation-governance tools.

This file gives a shallow embedding of `FSMValidator` from
`src/tools/validators.py` and proves properties of its ledger parser,
episode index, reference scanner, source-episode check and structure-order
check.  Files are modelled as lists of lines (each line a `String` without a
trailing newline); a directory listing is a list of file names in the
enumeration order the operating system hands to `Path.iterdir`; a missing
file or directory is `none`.  Python's `\d` is modelled as the ASCII digits
`0`-`9`, and `str.strip()` as trimming the standard whitespace characters;
the validator only compares such characters for the artifacts it governs.

The constants `REQUIREMENTS` and `TRIAD_FILES` are imported by
`validators.py` from a `config` module; their values are taken from
`src/tools/old_config.py`, which defines exactly these two constants.
-/

namespace Canonic

/-- One violation record, as built by `Validator.add_violation`
(`validators.py`, lines 30-43): artifact path, optional line number,
requirement reference and a details message. -/
structure Violation where
  artifact : String
  line : Option Nat
  requirement : String
  details : String
deriving DecidableEq, Repr

/-- `REQUIREMENTS["USER_GUIDE_ASSET"]` from `old_config.py`. -/
def reqAsset : String := "user-guide/CANON.md:60-63 (FSM Validation Details)"

/-- `REQUIREMENTS["USER_GUIDE_STRUCTURE"]` from `old_config.py`. -/
def reqStructure : String := "user-guide/CANON.md:64-66 (FSM Validation Details)"

/-- `TRIAD_FILES` from `old_config.py`. -/
def TRIAD_FILES : List String := ["CANON.md", "VOCABULARY.md", "README.md"]

/-! ### Python string primitives, on character lists -/

/-- Python `str.startswith`: the first list is a prefix of the second. -/
def startsWithChars : List Char → List Char → Bool
  | [], _ => true
  | _ :: _, [] => false
  | a :: as_, b :: bs => a == b && startsWithChars as_ bs

/-- Python `str.endswith`. -/
def endsWithChars (p l : List Char) : Bool := startsWithChars p.reverse l.reverse

/-- Python `str.strip(c)` for a single character `c`: remove every leading
and trailing occurrence of `c`. -/
def stripChar (c : Char) (l : List Char) : List Char :=
  ((l.dropWhile (· == c)).reverse.dropWhile (· == c)).reverse

/-- Python `str.strip()`: remove leading and trailing whitespace. -/
def pyStrip (l : List Char) : List Char :=
  ((l.dropWhile Char.isWhitespace).reverse.dropWhile Char.isWhitespace).reverse

/-- Python `str.split(c)` for a single-character separator: split on every
occurrence, keeping empty pieces (`"a||b" → ["a", "", "b"]`). -/
def splitChar (c : Char) : List Char → List (List Char)
  | [] => [[]]
  | x :: xs =>
    if x == c then [] :: splitChar c xs
    else
      match splitChar c xs with
      | h :: t => (x :: h) :: t
      | [] => [[x]]

/-- Python `int(s)` on a string of decimal digits. -/
def pyInt (l : List Char) : Nat :=
  l.foldl (fun n c => n * 10 + (c.toNat - 48)) 0

/-! ### The ledger parser (`FSMValidator._parse_asset_ledger`, lines 203-254) -/

/-- The regex `^asset-\d{4}$` (line 230): the literal prefix `asset-`
followed by exactly four digits. -/
def isAssetIdChars (l : List Char) : Bool :=
  startsWithChars "asset-".data l && (l.drop 6).length == 4 && (l.drop 6).all Char.isDigit

/-- `int(asset_id.split("-")[1])` (line 239). -/
def idNum (id : String) : Nat :=
  pyInt ((splitChar '-' id.data).getD 1 [])

/-- One digit character. -/
def digitChar : Nat → Char
  | 0 => '0'
  | 1 => '1'
  | 2 => '2'
  | 3 => '3'
  | 4 => '4'
  | 5 => '5'
  | 6 => '6'
  | 7 => '7'
  | 8 => '8'
  | 9 => '9'
  | _ => '*'

/-- Python's `format(n, "04d")` (used by the f-string at line 244): decimal
digits zero-padded on the left to at least width four. -/
def fmt04 (n : Nat) : String :=
  if n < 10000 then
    ⟨[digitChar (n / 1000), digitChar (n / 100 % 10), digitChar (n / 10 % 10), digitChar (n % 10)]⟩
  else toString n

/-- Metadata stored per asset id: `{"line": line_number, "sources": sources}`
(line 252). -/
structure AssetMeta where
  line : Nat
  sources : List String
deriving DecidableEq, Repr

/-- `set.add` on the list model of a Python set: membership-based. -/
def setAdd (x : String) (s : List String) : List String :=
  if x ∈ s then s else s ++ [x]

/-- Python dict assignment `d[k] = v` on an insertion-ordered association
list: overwrite in place if the key exists, else append. -/
def dictInsert (k : String) (v : AssetMeta) : List (String × AssetMeta) → List (String × AssetMeta)
  | [] => [(k, v)]
  | (k2, v2) :: rest => if k2 = k then (k, v) :: rest else (k2, v2) :: dictInsert k v rest

/-- Python dict lookup `d.get(k)`. -/
def dictLookup (k : String) : List (String × AssetMeta) → Option AssetMeta
  | [] => none
  | (k2, v2) :: rest => if k2 = k then some v2 else dictLookup k rest

/-- Root-relative artifact path of the ledger file. -/
def ledgerArtifact : String := "user-guide/assets/LEDGER.md"

/-- Root-relative artifact path of the prose file. -/
def proseArtifact : String := "user-guide/prose/draft.md"

/-- Root-relative artifact path of the outline file. -/
def outlineArtifact : String := "user-guide/structure/outline.md"

/-- Root-relative artifact path of an episode directory entry. -/
def episodeArtifact (name : String) : String := "user-guide/episodes/" ++ name

/-- The format violation of lines 231-236. -/
def fmtViolation (id : String) (n : Nat) : Violation :=
  { artifact := ledgerArtifact, line := some n, requirement := reqAsset,
    details := "Asset ID '" ++ id ++ "' has invalid format (expected: asset-NNNN with 4 digits)." }

/-- The details string of the sequence violation of lines 240-246. -/
def seqDetails (id : String) (e : Nat) : String :=
  "Asset ID " ++ id ++ " breaks sequential order (expected: asset-" ++ fmt04 e ++ ")."

/-- The sequence violation of lines 240-246. -/
def seqViolation (id : String) (e : Nat) (n : Nat) : Violation :=
  { artifact := ledgerArtifact, line := some n, requirement := reqAsset,
    details := seqDetails id e }

/-- The missing-ledger violation of lines 208-214. -/
def missingLedgerViolation : Violation :=
  { artifact := ledgerArtifact, line := none, requirement := reqAsset,
    details := "Missing assets/LEDGER.md; cannot validate asset references." }

/-- Lines 219-225: a line is a data row when the stripped line starts with
`| asset-`; its columns are the pipe-separated cells of the stripped line,
each cell stripped of whitespace. -/
def rowCols (line : String) : Option (List String) :=
  let stripped := pyStrip line.data
  if startsWithChars "| asset-".data stripped then
    some ((splitChar '|' (stripChar '|' stripped)).map (fun col => String.mk (pyStrip col)))
  else none

/-- Lines 249-250: `columns[3]` if present (else `""`), split on commas,
each piece stripped, empty pieces dropped. -/
def rowSources (columns : List String) : List String :=
  let sourceValue := columns.getD 3 ""
  (splitChar ',' sourceValue.data).filterMap
    (fun s => if pyStrip s = [] then none else some (String.mk (pyStrip s)))

/-- Mutable state of the ledger loop: the `expected_next_id` counter and the
accumulating violation list, id set and id-to-metadata dict. -/
structure LedgerState where
  expectedNext : Nat
  violations : List Violation
  assetIds : List String
  assetSources : List (String × AssetMeta)
deriving Repr

/-- The body of the ledger loop (lines 218-252) for one line. -/
def processLedgerLine (st : LedgerState) (n : Nat) (line : String) : LedgerState :=
  match rowCols line with
  | none => st
  | some [] => st
  | some (assetId :: restCols) =>
    let st1 :=
      if !isAssetIdChars assetId.data then
        { st with violations := st.violations ++ [fmtViolation assetId n] }
      else
        let m := idNum assetId
        let st2 :=
          if m ≠ st.expectedNext then
            { st with violations := st.violations ++ [seqViolation assetId st.expectedNext n] }
          else st
        { st2 with expectedNext := m + 1 }
    { st1 with assetIds := setAdd assetId st1.assetIds,
               assetSources := dictInsert assetId ⟨n, rowSources (assetId :: restCols)⟩ st1.assetSources }

/-- The ledger loop over all lines, with 1-based line numbers. -/
def runLedger : LedgerState → Nat → List String → LedgerState
  | st, _, [] => st
  | st, n, l :: ls => runLedger (processLedgerLine st n l) (n + 1) ls

/-- Result of `_parse_asset_ledger`: the violations it appended plus the
returned `(asset_ids, asset_sources)` pair. -/
structure LedgerResult where
  violations : List Violation
  assetIds : List String
  assetSources : List (String × AssetMeta)
deriving Repr

/-- `FSMValidator._parse_asset_ledger` (lines 203-254); `none` is a missing
ledger file. -/
def parseAssetLedger : Option (List String) → LedgerResult
  | none => ⟨[missingLedgerViolation], [], []⟩
  | some lines =>
    let st := runLedger ⟨1, [], [], []⟩ 1 lines
    ⟨st.violations, st.assetIds, st.assetSources⟩

/-! ### The episode index (`FSMValidator._list_episode_ids`, lines 256-279) -/

/-- The regex `^episode-\d{2}\.md$` (line 267): the literal prefix
`episode-`, exactly two digits, then `.md`. -/
def isEpisodeNameChars (l : List Char) : Bool :=
  l.length == 13 && startsWithChars "episode-".data l &&
    ((l.drop 8).take 2).all Char.isDigit && endsWithChars ".md".data l

/-- The bad-filename violation of lines 268-272. -/
def episodeViolation (name : String) : Violation :=
  { artifact := episodeArtifact name, line := none, requirement := reqAsset,
    details := "Episode filename '" ++ name ++ "' has invalid format (expected: episode-NN.md with 2 digits)." }

/-- The slice `name[len("episode-"):-len(".md")]` of line 275. -/
def episodeIdPart (name : String) : List Char :=
  (name.data.drop 8).take (name.data.length - 11)

/-- The body of the episode loop (lines 262-277) for one directory entry. -/
def processEpisodeEntry (st : List Violation × List String) (name : String) :
    List Violation × List String :=
  if name ∈ TRIAD_FILES then st
  else
    let st1 :=
      if !isEpisodeNameChars name.data then (st.1 ++ [episodeViolation name], st.2)
      else st
    if startsWithChars "episode-".data name.data && endsWithChars ".md".data name.data then
      let idPart := episodeIdPart name
      if idPart ≠ [] then (st1.1, setAdd (String.mk idPart) st1.2) else st1
    else st1

/-- `FSMValidator._list_episode_ids` (lines 256-279); `none` is a missing
episode directory, `some entries` the names of the regular files of the
directory in enumeration order. -/
def listEpisodeIds : Option (List String) → List Violation × List String
  | none => ([], [])
  | some entries => entries.foldl processEpisodeEntry ([], [])

/-! ### The reference scanner (`FSMValidator._validate_prose_references`,
lines 281-305) -/

/-- The match of `asset-\d{4}` anchored at the start of the character list,
if any. -/
def tokenAt : List Char → Option String
  | 'a' :: 's' :: 's' :: 'e' :: 't' :: '-' :: d1 :: d2 :: d3 :: d4 :: _ =>
    if d1.isDigit && d2.isDigit && d3.isDigit && d4.isDigit then
      some (String.mk ['a', 's', 's', 'e', 't', '-', d1, d2, d3, d4])
    else none
  | _ => none

/-- `re.finditer(r"asset-\d{4}", line)` (lines 291-296): all matches of the
token pattern in a line, left to right.  No match of this pattern can start
strictly inside another (none of `sset-` nor a digit is `a`), so the
non-overlapping left-to-right scan of `finditer` finds exactly the matches
anchored at each position. -/
def scanRefs : List Char → List String
  | [] => []
  | c :: rest => (tokenAt (c :: rest)).toList ++ scanRefs rest

/-- The details string of the unregistered-reference violation (line 303). -/
def prDetails (id : String) : String :=
  "Prose references " ++ id ++ " which is not registered in assets/LEDGER.md."

/-- The unregistered-reference violation of lines 300-305. -/
def prViolation (id : String) (n : Nat) : Violation :=
  { artifact := proseArtifact, line := some n, requirement := reqAsset,
    details := prDetails id }

/-- The missing-prose violation of lines 283-289. -/
def missingProseViolation : Violation :=
  { artifact := proseArtifact, line := none, requirement := reqAsset,
    details := "Missing prose/draft.md; FSM validation requires prose to exist." }

/-- State of the reference scan: the per-document `missing` set and the
accumulated violations. -/
structure PRState where
  missing : List String
  viols : List Violation
deriving Repr

/-- Lines 297-305 for one matched token. -/
def prToken (assetIds : List String) (n : Nat) (st : PRState) (tok : String) : PRState :=
  if tok ∉ assetIds ∧ tok ∉ st.missing then
    { missing := st.missing ++ [tok], viols := st.viols ++ [prViolation tok n] }
  else st

/-- One prose line: fold the token handler over the matches of the line. -/
def prLine (assetIds : List String) (n : Nat) (st : PRState) (line : String) : PRState :=
  (scanRefs line.data).foldl (prToken assetIds n) st

/-- The prose loop over all lines, with 1-based line numbers. -/
def prLines (assetIds : List String) : Nat → List String → PRState → PRState
  | _, [], st => st
  | n, l :: ls, st => prLines assetIds (n + 1) ls (prLine assetIds n st l)

/-- `FSMValidator._validate_prose_references` (lines 281-305). -/
def validateProseReferences : Option (List String) → List String → List Violation
  | none, _ => [missingProseViolation]
  | some lines, assetIds => (prLines assetIds 1 lines ⟨[], []⟩).viols

/-! ### The source-episode check (`FSMValidator._validate_asset_sources`,
lines 307-332) -/

/-- The details string of the empty-source violation (line 320). -/
def noSourceDetails (id : String) : String :=
  "Asset " ++ id ++ " lists no Source Episode in LEDGER.md."

/-- The empty-source violation of lines 316-323. -/
def noSourceViolation (id : String) (ln : Nat) : Violation :=
  { artifact := ledgerArtifact, line := some ln, requirement := reqAsset,
    details := noSourceDetails id }

/-- The details string of the missing-episode violation (line 330). -/
def missingEpDetails (id ep : String) : String :=
  "Asset " ++ id ++ " references episode " ++ ep ++ " but no such episode file exists."

/-- The missing-episode violation of lines 325-332. -/
def missingEpViolation (id ep : String) (ln : Nat) : Violation :=
  { artifact := ledgerArtifact, line := some ln, requirement := reqAsset,
    details := missingEpDetails id ep }

/-- Lines 314-332 for one `(asset_id, meta)` item of the dict. -/
def assetEntryViols (episodeIds : List String) (entry : String × AssetMeta) : List Violation :=
  if entry.2.sources = [] then [noSourceViolation entry.1 entry.2.line]
  else entry.2.sources.filterMap
    (fun ep => if ep ∉ episodeIds then some (missingEpViolation entry.1 ep entry.2.line) else none)

/-- `FSMValidator._validate_asset_sources` (lines 307-332), iterating the
dict items in insertion order. -/
def validateAssetSources (assetSources : List (String × AssetMeta)) (episodeIds : List String) :
    List Violation :=
  assetSources.flatMap (assetEntryViols episodeIds)

/-! ### Structure parsing and ordering (`FSMValidator`, lines 334-413) -/

/-- Everything after the first occurrence of `c` (`s.split(c, 1)[1]`). -/
def afterChar (c : Char) : List Char → List Char
  | [] => []
  | x :: xs => if x == c then xs else afterChar c xs

/-- The title extraction of line 345: after the first colon if the stripped
line has one, else the remainder after `## Section`; stripped either way. -/
def structureTitle (stripped : List Char) : String :=
  if stripped.contains ':' then String.mk (pyStrip (afterChar ':' stripped))
  else String.mk (pyStrip (stripped.drop 10))

/-- The loop of `_parse_structure_sections` (lines 340-346): lines whose
stripped form starts with `## Section`, as `(name, lineNumber)` pairs. -/
def structSectionsAux : Nat → List String → List (String × Nat)
  | _, [] => []
  | n, l :: ls =>
    let stripped := pyStrip l.data
    if startsWithChars "## Section".data stripped then
      (structureTitle stripped, n) :: structSectionsAux (n + 1) ls
    else structSectionsAux (n + 1) ls

/-- `FSMValidator._parse_structure_sections` (lines 334-348). -/
def parseStructureSections : Option (List String) → List (String × Nat)
  | none => []
  | some lines => structSectionsAux 1 lines

/-- The loop of `_parse_prose_sections` (lines 356-360): lines whose
stripped form starts with `## `, the name being the stripped remainder. -/
def proseSectionsAux : Nat → List String → List (String × Nat)
  | _, [] => []
  | n, l :: ls =>
    let stripped := pyStrip l.data
    if startsWithChars "## ".data stripped then
      (String.mk (pyStrip (stripped.drop 3)), n) :: proseSectionsAux (n + 1) ls
    else proseSectionsAux (n + 1) ls

/-- `FSMValidator._parse_prose_sections` (lines 350-362). -/
def parseProseSections : Option (List String) → List (String × Nat)
  | none => []
  | some lines => proseSectionsAux 1 lines

/-- The missing-outline violation of lines 372-378. -/
def missingOutlineViolation : Violation :=
  { artifact := outlineArtifact, line := none, requirement := reqStructure,
    details := "Missing structure/outline.md; cannot verify section order." }

/-- The not-found violation of lines 396-403, attributed to the outline line. -/
def notFoundViolation (name : String) (ln : Nat) : Violation :=
  { artifact := outlineArtifact, line := some ln, requirement := reqStructure,
    details := "Structure section '" ++ name ++ "' cannot be found in prose/draft.md." }

/-- The details string of the out-of-order violation (line 409). -/
def outOfOrderDetails (name : String) : String :=
  "Section '" ++ name ++ "' appears out of order relative to structure/outline.md."

/-- The out-of-order violation of lines 405-411, attributed to the prose line. -/
def outOfOrderViolation (name : String) (ln : Nat) : Violation :=
  { artifact := proseArtifact, line := some ln, requirement := reqStructure,
    details := outOfOrderDetails name }

/-- Lines 390-394: the first prose entry with exactly this name, returning
its index and line number. -/
def findSection (name : String) : List (String × Nat) → Nat → Option (Nat × Nat)
  | [], _ => none
  | (n2, ln) :: rest, i =>
    if n2 = name then some (i, ln) else findSection name rest (i + 1)

/-- The loop of lines 383-413 over the declared outline sections, carrying
`last_index` (initially `-1`; set to the found index after every found
section, violation or not). -/
def structOrderLoop (proseSections : List (String × Nat)) :
    Int → List (String × Nat) → List Violation
  | _, [] => []
  | last, (name, sline) :: rest =>
    match findSection name proseSections 0 with
    | none => notFoundViolation name sline :: structOrderLoop proseSections last rest
    | some (idx, fline) =>
      (if (idx : Int) ≤ last then [outOfOrderViolation name fline] else []) ++
        structOrderLoop proseSections (idx : Int) rest

/-- `FSMValidator._validate_structure_order` (lines 364-413). -/
def validateStructureOrder (outlinePresent prosePresent : Bool)
    (structureSections proseSections : List (String × Nat)) : List Violation :=
  if !outlinePresent then [missingOutlineViolation]
  else if !prosePresent then []
  else structOrderLoop proseSections (-1) structureSections

/-! ### The orchestrator (`FSMValidator.validate`, lines 175-201) -/

/-- The `user-guide` subtree as the validator sees it: each artifact is a
list of lines (`none` when the file is absent), the episode directory a
list of file names in enumeration order (`none` when absent). -/
structure UserGuide where
  ledger : Option (List String)
  episodes : Option (List String)
  prose : Option (List String)
  outline : Option (List String)
deriving Repr

/-- `FSMValidator.validate` (lines 175-201): `none` when the `user-guide`
directory does not exist.  Violations accumulate in check order: ledger,
episode listing, prose references, asset sources, structure order. -/
def fsmValidate : Option UserGuide → List Violation
  | none => []
  | some t =>
    let lr := parseAssetLedger t.ledger
    let ep := listEpisodeIds t.episodes
    let pv := validateProseReferences t.prose lr.assetIds
    let sv := validateAssetSources lr.assetSources ep.2
    let ss := parseStructureSections t.outline
    let ps := parseProseSections t.prose
    let ov := validateStructureOrder t.outline.isSome t.prose.isSome ss ps
    lr.violations ++ ep.1 ++ pv ++ sv ++ ov

/-! ### Specification-side definitions used by the theorems -/

/-- A sequence violation (lines 240-246): its details start with
`Asset ID asset-`, since the id there is always well-formed. -/
def isSeqViol (v : Violation) : Bool :=
  startsWithChars "Asset ID asset-".data v.details.data

/-- A format violation (lines 231-236): its details start with
`Asset ID '`. -/
def isFmtViol (v : Violation) : Bool :=
  startsWithChars "Asset ID '".data v.details.data

/-- The id cell of a data row (`columns[0]`), if the line is one. -/
def rowId (line : String) : Option String :=
  match rowCols line with
  | some (id :: _) => some id
  | _ => none

/-- The violations one line contributes, given the current expected counter. -/
def rowEmit (e n : Nat) (l : String) : List Violation :=
  match rowId l with
  | none => []
  | some id =>
    if !isAssetIdChars id.data then [fmtViolation id n]
    else if idNum id ≠ e then [seqViolation id e n] else []

/-- The expected counter after one line: a well-formed row resets it to its
numeric suffix plus one, anything else leaves it unchanged. -/
def nextExpected (e : Nat) (l : String) : Nat :=
  match rowId l with
  | none => e
  | some id => if isAssetIdChars id.data then idNum id + 1 else e

/-- The violations the ledger loop emits from a given counter and line
number onward. -/
def ledgerEmits : Nat → Nat → List String → List Violation
  | _, _, [] => []
  | e, n, l :: ls => rowEmit e n l ++ ledgerEmits (nextExpected e l) (n + 1) ls

/-- The well-formed data-row ids of a ledger, in file order. -/
def wfRowIds (lines : List String) : List String :=
  (lines.filterMap rowId).filter (fun id => isAssetIdChars id.data)

/-- All data-row ids of a ledger, in file order. -/
def dataRowIds (lines : List String) : List String :=
  lines.filterMap rowId

/-- The details of the sequence violations determined by the well-formed id
sequence and the running expected counter. -/
def seqList (e : Nat) : List String → List String
  | [] => []
  | id :: rest => (if idNum id ≠ e then [seqDetails id e] else []) ++ seqList (idNum id + 1) rest

/-- The running counter after a list of well-formed ids. -/
def afterE (e : Nat) : List String → Nat
  | [] => e
  | id :: rest => afterE (idNum id + 1) rest

/-- The metadata of the last data row of the ledger carrying the given id,
scanning from line number `n`. -/
def lastRowMeta (id : String) : Nat → List String → Option AssetMeta
  | _, [] => none
  | n, l :: ls =>
    match lastRowMeta id (n + 1) ls with
    | some m => some m
    | none =>
      match rowCols l with
      | some (a :: rest) => if a = id then some ⟨n, rowSources (a :: rest)⟩ else none
      | _ => none

/-- The 1-based number of the first line (from line `n` on) in which the
reference scanner finds the given token. -/
def firstOcc (id : String) : Nat → List String → Option Nat
  | _, [] => none
  | n, l :: ls => if id ∈ scanRefs l.data then some n else firstOcc id (n + 1) ls

/-- The format violation a directory entry contributes to the episode scan:
one per non-triad file whose name fails the episode pattern. -/
def episodeViolOf (f : String) : Option Violation :=
  if f ∈ TRIAD_FILES then none
  else if isEpisodeNameChars f.data then none
  else some (episodeViolation f)

/-- The id a directory entry contributes to the episode id set: any
non-triad file with prefix `episode-` and suffix `.md` and a nonempty
middle contributes that middle, whether or not the name matched the
episode pattern. -/
def episodeIdOf (f : String) : Option String :=
  if f ∈ TRIAD_FILES then none
  else if startsWithChars "episode-".data f.data && endsWithChars ".md".data f.data then
    if episodeIdPart f ≠ [] then some (String.mk (episodeIdPart f)) else none
  else none

/-! ### Helper lemmas on the string primitives -/

theorem startsWithChars_append_same (p q r : List Char) :
    startsWithChars (p ++ q) (p ++ r) = startsWithChars q r := by
  induction p with
  | nil => rfl
  | cons a p ih => simp [startsWithChars, ih]

theorem startsWithChars_self_append (p t : List Char) :
    startsWithChars p (p ++ t) = true := by
  have h := startsWithChars_append_same p [] t
  simpa using h

theorem startsWithChars_eq_true_iff (p l : List Char) :
    startsWithChars p l = true ↔ ∃ t, l = p ++ t := by
  induction p generalizing l with
  | nil => simp [startsWithChars]
  | cons a p ih =>
    cases l with
    | nil => simp [startsWithChars]
    | cons b l =>
      simp only [startsWithChars, Bool.and_eq_true, beq_iff_eq, ih, List.cons_append]
      constructor
      · rintro ⟨rfl, t, rfl⟩; exact ⟨t, rfl⟩
      · rintro ⟨t, h⟩
        injection h with h1 h2
        exact ⟨h1.symm, t, h2⟩

/-- A well-formed asset id is `asset-` followed by four digits. -/
theorem isAssetIdChars_shape {l : List Char} (h : isAssetIdChars l = true) :
    ∃ ds, l = "asset-".data ++ ds ∧ ds.length = 4 ∧ ds.all Char.isDigit = true := by
  unfold isAssetIdChars at h
  simp only [Bool.and_eq_true] at h
  obtain ⟨⟨hpre, hlen⟩, hdig⟩ := h
  obtain ⟨t, rfl⟩ := (startsWithChars_eq_true_iff _ _).mp hpre
  refine ⟨t, rfl, ?_, ?_⟩
  · have : ("asset-".data ++ t).drop 6 = t := by simp
    rw [this] at hlen
    simpa using hlen
  · have : ("asset-".data ++ t).drop 6 = t := by simp
    rw [this] at hdig
    exact hdig

/-! ### Classifying ledger violations by their details strings -/

theorem startsWithChars_cons_ne {a b : Char} (h : ¬a = b) (as_ bs : List Char) :
    startsWithChars (a :: as_) (b :: bs) = false := by
  simp [startsWithChars, h]

theorem isSeqViol_seqViolation {id : String} (h : isAssetIdChars id.data = true)
    (e n : Nat) : isSeqViol (seqViolation id e n) = true := by
  obtain ⟨ds, hds, -, -⟩ := isAssetIdChars_shape h
  have hdata : (seqDetails id e).data =
      "Asset ID asset-".data ++ (ds ++ (" breaks sequential order (expected: asset-" ++ fmt04 e ++ ").").data) := by
    simp [seqDetails, String.data_append, hds]
  show startsWithChars "Asset ID asset-".data (seqDetails id e).data = true
  rw [hdata]
  exact startsWithChars_self_append _ _

theorem isSeqViol_fmtViolation (id : String) (n : Nat) :
    isSeqViol (fmtViolation id n) = false := by
  have hdata : ("Asset ID '" ++ id ++ "' has invalid format (expected: asset-NNNN with 4 digits).").data =
      "Asset ID ".data ++ ('\'' :: (id ++ "' has invalid format (expected: asset-NNNN with 4 digits).").data) := by
    simp [String.data_append]
  have hpre : "Asset ID asset-".data = "Asset ID ".data ++ 'a' :: "sset-".data := by decide
  show startsWithChars "Asset ID asset-".data
      ("Asset ID '" ++ id ++ "' has invalid format (expected: asset-NNNN with 4 digits).").data = false
  rw [hdata, hpre, startsWithChars_append_same]
  exact startsWithChars_cons_ne (by decide) _ _

theorem isFmtViol_fmtViolation (id : String) (n : Nat) :
    isFmtViol (fmtViolation id n) = true := by
  have hdata : ("Asset ID '" ++ id ++ "' has invalid format (expected: asset-NNNN with 4 digits).").data =
      "Asset ID '".data ++ (id ++ "' has invalid format (expected: asset-NNNN with 4 digits).").data := by
    simp [String.data_append]
  show startsWithChars "Asset ID '".data
      ("Asset ID '" ++ id ++ "' has invalid format (expected: asset-NNNN with 4 digits).").data = true
  rw [hdata]
  exact startsWithChars_self_append _ _

theorem isFmtViol_seqViolation {id : String} (h : isAssetIdChars id.data = true)
    (e n : Nat) : isFmtViol (seqViolation id e n) = false := by
  obtain ⟨ds, hds, -, -⟩ := isAssetIdChars_shape h
  have hdata : (seqDetails id e).data =
      "Asset ID ".data ++ ('a' :: ("sset-".data ++ ds ++ (" breaks sequential order (expected: asset-" ++ fmt04 e ++ ").").data)) := by
    simp [seqDetails, String.data_append, hds]
  have hpre : "Asset ID '".data = "Asset ID ".data ++ '\'' :: [] := by decide
  show startsWithChars "Asset ID '".data (seqDetails id e).data = false
  rw [hdata, hpre, startsWithChars_append_same]
  exact startsWithChars_cons_ne (by decide) _ _

/-! ### A recurrence for the ledger loop -/

theorem processLedgerLine_violations (st : LedgerState) (n : Nat) (l : String) :
    (processLedgerLine st n l).violations = st.violations ++ rowEmit st.expectedNext n l := by
  unfold processLedgerLine rowEmit rowId
  cases h : rowCols l with
  | none => simp
  | some cols =>
    cases cols with
    | nil => simp
    | cons id rest =>
      by_cases hwf : isAssetIdChars id.data
      · by_cases hne : idNum id ≠ st.expectedNext <;> simp [hwf, hne]
      · simp [hwf]

theorem processLedgerLine_expectedNext (st : LedgerState) (n : Nat) (l : String) :
    (processLedgerLine st n l).expectedNext = nextExpected st.expectedNext l := by
  unfold processLedgerLine nextExpected rowId
  cases h : rowCols l with
  | none => simp
  | some cols =>
    cases cols with
    | nil => simp
    | cons id rest =>
      by_cases hwf : isAssetIdChars id.data
      · by_cases hne : idNum id ≠ st.expectedNext <;> simp [hwf, hne]
      · simp [hwf]

theorem runLedger_violations (ls : List String) :
    ∀ (st : LedgerState) (n : Nat),
      (runLedger st n ls).violations = st.violations ++ ledgerEmits st.expectedNext n ls := by
  induction ls with
  | nil => intro st n; simp [runLedger, ledgerEmits]
  | cons l ls ih =>
    intro st n
    rw [runLedger, ih, ledgerEmits, processLedgerLine_violations,
        processLedgerLine_expectedNext, List.append_assoc]

theorem ledgerEmits_filter_seq (ls : List String) :
    ∀ (e n : Nat),
      ((ledgerEmits e n ls).filter isSeqViol).map Violation.details = seqList e (wfRowIds ls) := by
  induction ls with
  | nil => intro e n; simp [ledgerEmits, wfRowIds, seqList]
  | cons l ls ih =>
    intro e n
    rw [ledgerEmits, List.filter_append, List.map_append, ih]
    cases h : rowId l with
    | none =>
      simp only [rowEmit, nextExpected, h]
      simp [wfRowIds, List.filterMap_cons, h, wfRowIds] at ih ⊢
    | some id =>
      by_cases hwf : isAssetIdChars id.data
      · have hwfl : wfRowIds (l :: ls) = id :: wfRowIds ls := by
          simp [wfRowIds, List.filterMap_cons, h, hwf]
        have hnx : nextExpected e l = idNum id + 1 := by simp [nextExpected, h, hwf]
        rw [hwfl, seqList, hnx]
        by_cases hne : idNum id ≠ e
        · have hre : rowEmit e n l = [seqViolation id e n] := by simp [rowEmit, h, hwf, hne]
          rw [hre]
          have hsv : isSeqViol (seqViolation id e n) = true := isSeqViol_seqViolation hwf e n
          simp only [List.filter_cons, hsv, if_true, List.filter_nil, List.map_cons, List.map_nil]
          simp [seqViolation, hne]
        · have hre : rowEmit e n l = [] := by simp [rowEmit, h, hwf, hne]
          rw [hre]
          simp [hne]
      · have hwfl : wfRowIds (l :: ls) = wfRowIds ls := by
          simp [wfRowIds, List.filterMap_cons, h, hwf]
        rw [hwfl]
        simp [rowEmit, nextExpected, h, hwf, isSeqViol_fmtViolation]

theorem ledgerEmits_countP_fmt (ls : List String) :
    ∀ (e n : Nat),
      (ledgerEmits e n ls).countP isFmtViol =
        (dataRowIds ls).countP (fun id => !isAssetIdChars id.data) := by
  induction ls with
  | nil => intro e n; simp [ledgerEmits, dataRowIds]
  | cons l ls ih =>
    intro e n
    rw [ledgerEmits, List.countP_append, ih]
    cases h : rowId l with
    | none =>
      simp [rowEmit, h, dataRowIds, List.filterMap_cons]
    | some id =>
      have hdata : dataRowIds (l :: ls) = id :: dataRowIds ls := by
        simp [dataRowIds, List.filterMap_cons, h]
      rw [hdata, List.countP_cons]
      by_cases hwf : isAssetIdChars id.data
      · simp only [rowEmit, h, hwf]
        by_cases hne : idNum id ≠ e
        · simp [hne, isFmtViol_seqViolation hwf, hwf]
        · simp [hne, hwf]
      · have hwf' : isAssetIdChars id.data = false := by simpa using hwf
        simp [rowEmit, h, hwf', isFmtViol_fmtViolation]
        omega

theorem seqList_append (l1 l2 : List String) :
    ∀ e, seqList e (l1 ++ l2) = seqList e l1 ++ seqList (afterE e l1) l2 := by
  induction l1 with
  | nil => intro e; simp [seqList, afterE]
  | cons id l1 ih => intro e; simp [seqList, afterE, ih, List.append_assoc]

theorem seqList_range' (l : List String) :
    ∀ e k, l.map idNum = List.range' e k → seqList e l = [] := by
  induction l with
  | nil => intro e k _; rfl
  | cons id l ih =>
    intro e k h
    cases k with
    | zero => simp [List.range'] at h
    | succ k =>
      rw [List.range'] at h
      simp only [List.map_cons, List.cons.injEq] at h
      obtain ⟨h1, h2⟩ := h
      rw [seqList, h1]
      simp [ih _ k (by simpa [h1] using h2)]

theorem afterE_range' (l : List String) :
    ∀ e k, l.map idNum = List.range' e k → afterE e l = e + k := by
  induction l with
  | nil =>
    intro e k h
    cases k with
    | zero => simp [afterE]
    | succ k => simp [List.range'] at h
  | cons id l ih =>
    intro e k h
    cases k with
    | zero => simp [List.range'] at h
    | succ k =>
      rw [List.range'] at h
      simp only [List.map_cons, List.cons.injEq] at h
      obtain ⟨h1, h2⟩ := h
      rw [afterE, h1, ih _ k (by simpa [h1] using h2)]
      omega

/-- The sequence violations of a parsed ledger, as details strings, are
`seqList` of its well-formed row ids. -/
theorem parseAssetLedger_seq_details (lines : List String) :
    (((parseAssetLedger (some lines)).violations.filter isSeqViol).map Violation.details) =
      seqList 1 (wfRowIds lines) := by
  show (((runLedger ⟨1, [], [], []⟩ 1 lines).violations.filter isSeqViol).map Violation.details) = _
  rw [runLedger_violations]
  simpa using ledgerEmits_filter_seq lines 1 1

/-- The format-violation count of a parsed ledger is the number of malformed
data-row ids. -/
theorem parseAssetLedger_fmt_count (lines : List String) :
    (parseAssetLedger (some lines)).violations.countP isFmtViol =
      (dataRowIds lines).countP (fun id => !isAssetIdChars id.data) := by
  show (runLedger ⟨1, [], [], []⟩ 1 lines).violations.countP isFmtViol = _
  rw [runLedger_violations]
  simpa using ledgerEmits_countP_fmt lines 1 1

/-! ### Claims about the ledger sequence check -/

theorem seqViol_count_eq (lines : List String) :
    (parseAssetLedger (some lines)).violations.countP isSeqViol =
      (seqList 1 (wfRowIds lines)).length := by
  rw [List.countP_eq_length_filter, ← parseAssetLedger_seq_details, List.length_map]

/-- Claim C2: a ledger whose well-formed rows are numbered `1..N` with no gaps
yields zero sequence violations; with the rows `1..k` followed by a first
id whose suffix `m` differs from `k+1` (and sequential rows after it), the
parse yields exactly one sequence violation, citing the expected id built
from `k+1`; concretely, ids `1,2,4` yield exactly the one violation citing
`asset-0003`.  One gap never cascades. -/
theorem ledger_sequence_claim :
    (∀ (lines : List String) (N : Nat),
        (wfRowIds lines).map idNum = List.range' 1 N →
        (parseAssetLedger (some lines)).violations.countP isSeqViol = 0)
  ∧ (∀ (lines ids1 : List String) (id2 : String) (rest2 : List String) (k m r : Nat),
        wfRowIds lines = ids1 ++ id2 :: rest2 →
        ids1.map idNum = List.range' 1 k →
        idNum id2 = m → m ≠ k + 1 →
        rest2.map idNum = List.range' (m + 1) r →
        ((parseAssetLedger (some lines)).violations.filter isSeqViol).map Violation.details
          = [seqDetails id2 (k + 1)])
  ∧ ((parseAssetLedger (some ["| asset-0001 | A | t | 01 |", "| asset-0002 | B | t | 01 |",
        "| asset-0004 | C | t | 01 |"])).violations.map Violation.details
      = ["Asset ID asset-0004 breaks sequential order (expected: asset-0003)."]) := by
  refine ⟨?_, ?_, by decide⟩
  · intro lines N h
    rw [seqViol_count_eq, seqList_range' _ 1 N h]
    rfl
  · intro lines ids1 id2 rest2 k m r hwf h1 h2 hne h3
    rw [parseAssetLedger_seq_details, hwf, seqList_append, seqList_range' _ 1 k h1,
        afterE_range' _ 1 k h1]
    have h1k : 1 + k = k + 1 := Nat.add_comm 1 k
    rw [h1k, seqList, h2]
    rw [seqList_range' _ (m + 1) r h3]
    simp [hne]

/-- Witness for `ledger_sequence_claim` at concrete ledgers. -/
theorem ledger_sequence_claim_witness :
    (parseAssetLedger (some ["| asset-0001 | A | t | 01 |",
        "| asset-0002 | B | t | 02 |"])).violations.countP isSeqViol = 0
  ∧ ((parseAssetLedger (some ["| asset-0001 | A | t | 01 |", "| asset-0002 | B | t | 01 |",
        "| asset-0004 | C | t | 01 |"])).violations.filter isSeqViol).map Violation.details
      = [seqDetails "asset-0004" 3] :=
  ⟨ledger_sequence_claim.1 _ 2 (by decide),
   ledger_sequence_claim.2.1 _ ["asset-0001", "asset-0002"] "asset-0004" [] 2 4 0
     (by decide) (by decide) (by decide) (by decide) (by decide)⟩

/-- Claim C5: a ledger whose well-formed rows are numbered `1..N` and which has
exactly one malformed data-row id yields exactly one format violation and
zero sequence violations: the malformed row does not perturb the expected
counter, and the well-formed rows stay sequential relative to each other. -/
theorem malformed_id_isolation :
    ∀ (lines : List String) (N : Nat),
      (wfRowIds lines).map idNum = List.range' 1 N →
      (dataRowIds lines).countP (fun id => !isAssetIdChars id.data) = 1 →
      (parseAssetLedger (some lines)).violations.countP isFmtViol = 1 ∧
        (parseAssetLedger (some lines)).violations.countP isSeqViol = 0 := by
  intro lines N hseq hmal
  constructor
  · rw [parseAssetLedger_fmt_count]
    exact hmal
  · rw [seqViol_count_eq, seqList_range' _ 1 N hseq]
    rfl

/-- Witness for `malformed_id_isolation`: `asset-1` between `asset-0001`
and `asset-0002`. -/
theorem malformed_id_isolation_witness :
    (parseAssetLedger (some ["| asset-0001 | First | t | 01 |", "| asset-1 | Bad | t | 01 |",
        "| asset-0002 | Second | t | 01 |"])).violations.countP isFmtViol = 1 ∧
    (parseAssetLedger (some ["| asset-0001 | First | t | 01 |", "| asset-1 | Bad | t | 01 |",
        "| asset-0002 | Second | t | 01 |"])).violations.countP isSeqViol = 0 :=
  malformed_id_isolation _ 2 (by decide) (by decide)

/-! ### Claims about malformed ids and the reference scanner (C3) -/

/-- An anchored match is always a well-formed asset id. -/
theorem tokenAt_wf {l : List Char} {tok : String} (h : tokenAt l = some tok) :
    isAssetIdChars tok.data = true := by
  unfold tokenAt at h
  split at h
  · rename_i d1 d2 d3 d4 rest
    split at h
    · rename_i hdig
      injection h with h2
      subst h2
      simp only [Bool.and_eq_true] at hdig
      obtain ⟨⟨⟨h1, h2⟩, h3⟩, h4⟩ := hdig
      simp [isAssetIdChars, startsWithChars, h1, h2, h3, h4]
    · exact absurd h (by simp)
  · exact absurd h (by simp)

/-- Every token the reference scanner extracts matches `^asset-\d{4}$`. -/
theorem scanRefs_wf (l : List Char) :
    ∀ tok ∈ scanRefs l, isAssetIdChars tok.data = true := by
  induction l with
  | nil => intro tok htok; simp [scanRefs] at htok
  | cons c rest ih =>
    intro tok htok
    rw [scanRefs, List.mem_append] at htok
    rcases htok with htok | htok
    · cases h : tokenAt (c :: rest) with
      | none => rw [h] at htok; simp at htok
      | some t =>
        rw [h] at htok
        simp only [Option.toList_some, List.mem_singleton] at htok
        subst htok
        exact tokenAt_wf h
    · exact ih tok htok

theorem prToken_congr {ids ids' : List String}
    (hids : ∀ t : String, isAssetIdChars t.data = true → (t ∈ ids ↔ t ∈ ids'))
    (n : Nat) (st : PRState) {tok : String} (hwf : isAssetIdChars tok.data = true) :
    prToken ids n st tok = prToken ids' n st tok := by
  show (if tok ∉ ids ∧ tok ∉ st.missing then _ else st) =
    (if tok ∉ ids' ∧ tok ∉ st.missing then _ else st)
  have hiff : (tok ∉ ids ∧ tok ∉ st.missing) ↔ (tok ∉ ids' ∧ tok ∉ st.missing) := by
    rw [hids tok hwf]
  exact if_congr hiff rfl rfl

theorem foldl_prToken_congr {ids ids' : List String}
    (hids : ∀ t : String, isAssetIdChars t.data = true → (t ∈ ids ↔ t ∈ ids'))
    (n : Nat) (toks : List String) (hwf : ∀ t ∈ toks, isAssetIdChars t.data = true) :
    ∀ st : PRState, toks.foldl (prToken ids n) st = toks.foldl (prToken ids' n) st := by
  induction toks with
  | nil => intro st; rfl
  | cons t toks ih =>
    intro st
    rw [List.foldl_cons, List.foldl_cons,
        prToken_congr hids n st (hwf t (List.mem_cons_self t toks))]
    exact ih (fun u hu => hwf u (List.mem_cons_of_mem t hu)) _

theorem prLines_congr {ids ids' : List String}
    (hids : ∀ t : String, isAssetIdChars t.data = true → (t ∈ ids ↔ t ∈ ids'))
    (ls : List String) :
    ∀ (n : Nat) (st : PRState), prLines ids n ls st = prLines ids' n ls st := by
  induction ls with
  | nil => intro n st; rfl
  | cons l ls ih =>
    intro n st
    rw [prLines, prLines, prLine, prLine,
        foldl_prToken_congr hids n _ (scanRefs_wf l.data) st]
    exact ih _ _

/-- Claim C3, corrected: a ledger row with a malformed id IS included in the
returned asset-id set and id-to-sources mapping (`asset-1` concretely);
but every token the prose reference scanner extracts matches the strict
pattern `asset-` plus four digits, so two id sets agreeing on all
pattern-matching ids produce identical reference-closure violations —
malformed entries in the set are inert for the reference check. -/
theorem malformed_id_membership_claim :
    ("asset-1" ∈ (parseAssetLedger (some ["| asset-1 | X | t | 01 |"])).assetIds
      ∧ dictLookup "asset-1" (parseAssetLedger (some ["| asset-1 | X | t | 01 |"])).assetSources
          = some ⟨1, ["01"]⟩)
  ∧ (∀ (l : List Char) (tok : String), tok ∈ scanRefs l → isAssetIdChars tok.data = true)
  ∧ (∀ (ids ids' : List String),
      (∀ t : String, isAssetIdChars t.data = true → (t ∈ ids ↔ t ∈ ids')) →
      ∀ lines : List String,
        validateProseReferences (some lines) ids = validateProseReferences (some lines) ids') := by
  refine ⟨by decide, scanRefs_wf, ?_⟩
  intro ids ids' hids lines
  show (prLines ids 1 lines ⟨[], []⟩).viols = (prLines ids' 1 lines ⟨[], []⟩).viols
  rw [prLines_congr hids]

/-- Witness for `malformed_id_membership_claim`: the scanner token
`asset-0001` is well-formed, and adding the malformed id `asset-1` to a
known-id set does not change the scan of a document referencing
`asset-0001` and `asset-9999`. -/
theorem malformed_id_membership_claim_witness :
    isAssetIdChars ("asset-0001" : String).data = true
  ∧ validateProseReferences (some ["see asset-0001 and asset-9999"]) ["asset-0001"]
      = validateProseReferences (some ["see asset-0001 and asset-9999"]) ["asset-0001", "asset-1"] :=
  ⟨malformed_id_membership_claim.2.1 "asset-0001".data "asset-0001" (by decide),
   malformed_id_membership_claim.2.2 ["asset-0001"] ["asset-0001", "asset-1"]
     (by
       intro t ht
       have h1 : t ∈ ["asset-0001"] ↔ t = "asset-0001" := List.mem_singleton
       have h2 : t ∈ ["asset-0001", "asset-1"] ↔ t = "asset-0001" ∨ t = "asset-1" := by
         simp
       rw [h1, h2]
       constructor
       · exact fun h => Or.inl h
       · rintro (h | h)
         · exact h
         · subst h
           exact absurd ht (by decide))
     ["see asset-0001 and asset-9999"]⟩

/-- Counterexample to C3 as stated: the malformed id `asset-1` is NOT
excluded — it appears in the returned id set and in the mapping. -/
theorem malformed_id_membership_counterexample :
    "asset-1" ∈ (parseAssetLedger (some ["| asset-1 | X | t | 01 |"])).assetIds
  ∧ dictLookup "asset-1" (parseAssetLedger (some ["| asset-1 | X | t | 01 |"])).assetSources
      = some ⟨1, ["01"]⟩ := by decide

/-! ### Claims about duplicated ledger ids (C10) -/

theorem mem_setAdd (x y : String) (s : List String) :
    x ∈ setAdd y s ↔ x = y ∨ x ∈ s := by
  unfold setAdd
  split
  · rename_i hy
    constructor
    · exact fun h => Or.inr h
    · rintro (rfl | h)
      · exact hy
      · exact h
  · simp [List.mem_append, or_comm]

theorem setAdd_nodup {s : List String} (h : s.Nodup) (y : String) :
    (setAdd y s).Nodup := by
  unfold setAdd
  split
  · exact h
  · rename_i hy
    simpa [List.nodup_append] using ⟨h, hy⟩

theorem dictLookup_dictInsert (id k : String) (v : AssetMeta)
    (m : List (String × AssetMeta)) :
    dictLookup id (dictInsert k v m) = if k = id then some v else dictLookup id m := by
  induction m with
  | nil => simp [dictInsert, dictLookup]
  | cons p m ih =>
    obtain ⟨k2, v2⟩ := p
    by_cases hk : k2 = k
    · subst hk
      by_cases hid : k2 = id <;> simp [dictInsert, dictLookup, hid]
    · by_cases hid : k2 = id
      · subst hid
        have hk' : ¬k = k2 := fun h => hk h.symm
        simp [dictInsert, dictLookup, hk, hk']
      · simp [dictInsert, dictLookup, hk, hid, ih]

theorem map_fst_dictInsert (k : String) (v : AssetMeta) (m : List (String × AssetMeta)) :
    (dictInsert k v m).map Prod.fst =
      if k ∈ m.map Prod.fst then m.map Prod.fst else m.map Prod.fst ++ [k] := by
  induction m with
  | nil => simp [dictInsert]
  | cons p m ih =>
    obtain ⟨k2, v2⟩ := p
    by_cases hk : k2 = k
    · subst hk
      simp [dictInsert]
    · have hk' : ¬k = k2 := fun h => hk h.symm
      simp only [dictInsert, if_neg hk, List.map_cons, List.mem_cons, ih]
      by_cases hm : k ∈ m.map Prod.fst
      · simp [hm, hk']
      · simp [hm, hk']

theorem keys_nodup_dictInsert {m : List (String × AssetMeta)}
    (h : (m.map Prod.fst).Nodup) (k : String) (v : AssetMeta) :
    ((dictInsert k v m).map Prod.fst).Nodup := by
  rw [map_fst_dictInsert]
  split
  · exact h
  · rename_i hk
    rw [List.nodup_append]
    refine ⟨h, List.nodup_singleton k, ?_⟩
    intro a ha hb
    rw [List.mem_singleton] at hb
    subst hb
    exact hk ha

theorem processLedgerLine_assetIds (st : LedgerState) (n : Nat) (l : String) :
    (processLedgerLine st n l).assetIds =
      match rowId l with
      | some a => setAdd a st.assetIds
      | none => st.assetIds := by
  unfold processLedgerLine rowId
  cases h : rowCols l with
  | none => simp
  | some cols =>
    cases cols with
    | nil => simp
    | cons id rest =>
      by_cases hwf : isAssetIdChars id.data
      · by_cases hne : idNum id ≠ st.expectedNext <;> simp [hwf, hne]
      · simp [hwf]

theorem processLedgerLine_assetSources (st : LedgerState) (n : Nat) (l : String) :
    (processLedgerLine st n l).assetSources =
      match rowCols l with
      | some (a :: rest) => dictInsert a ⟨n, rowSources (a :: rest)⟩ st.assetSources
      | _ => st.assetSources := by
  unfold processLedgerLine
  cases h : rowCols l with
  | none => simp
  | some cols =>
    cases cols with
    | nil => simp
    | cons id rest =>
      by_cases hwf : isAssetIdChars id.data
      · by_cases hne : idNum id ≠ st.expectedNext <;> simp [hwf, hne]
      · simp [hwf]

theorem runLedger_assetIds_nodup (ls : List String) :
    ∀ (st : LedgerState) (n : Nat), st.assetIds.Nodup → (runLedger st n ls).assetIds.Nodup := by
  induction ls with
  | nil => intro st n h; exact h
  | cons l ls ih =>
    intro st n h
    rw [runLedger]
    refine ih _ _ ?_
    rw [processLedgerLine_assetIds]
    cases rowId l with
    | none => exact h
    | some a => exact setAdd_nodup h a

theorem runLedger_keys_nodup (ls : List String) :
    ∀ (st : LedgerState) (n : Nat), (st.assetSources.map Prod.fst).Nodup →
      ((runLedger st n ls).assetSources.map Prod.fst).Nodup := by
  induction ls with
  | nil => intro st n h; exact h
  | cons l ls ih =>
    intro st n h
    rw [runLedger]
    refine ih _ _ ?_
    rw [processLedgerLine_assetSources]
    cases hc : rowCols l with
    | none => exact h
    | some cols =>
      cases cols with
      | nil => exact h
      | cons a rest => exact keys_nodup_dictInsert h a _

theorem runLedger_mem_assetIds (ls : List String) :
    ∀ (st : LedgerState) (n : Nat) (x : String),
      x ∈ (runLedger st n ls).assetIds ↔ x ∈ st.assetIds ∨ x ∈ dataRowIds ls := by
  induction ls with
  | nil => intro st n x; simp [runLedger, dataRowIds]
  | cons l ls ih =>
    intro st n x
    rw [runLedger, ih]
    have hd : dataRowIds (l :: ls) =
        (match rowId l with | some a => [a] | none => []) ++ dataRowIds ls := by
      cases h : rowId l <;> simp [dataRowIds, List.filterMap_cons, h]
    rw [hd, processLedgerLine_assetIds]
    cases h : rowId l with
    | none => simp
    | some a =>
      simp only [mem_setAdd, List.mem_append, List.mem_singleton]
      tauto

theorem runLedger_lookup (id : String) (ls : List String) :
    ∀ (st : LedgerState) (n : Nat),
      dictLookup id (runLedger st n ls).assetSources =
        match lastRowMeta id n ls with
        | some m => some m
        | none => dictLookup id st.assetSources := by
  induction ls with
  | nil => intro st n; simp [runLedger, lastRowMeta]
  | cons l ls ih =>
    intro st n
    rw [runLedger, ih, lastRowMeta]
    cases hlast : lastRowMeta id (n + 1) ls with
    | some m => simp
    | none =>
      simp only []
      rw [processLedgerLine_assetSources]
      cases hc : rowCols l with
      | none => simp
      | some cols =>
        cases cols with
        | nil => simp
        | cons a rest =>
          rw [dictLookup_dictInsert]
          by_cases ha : a = id
          · subst ha
            simp
          · simp [ha]

/-- Claim C10, corrected: a ledger in which a well-formed id occurs on more than
one row yields an id set containing it exactly once (the returned list has
no duplicates and membership is exactly the data-row ids) and a mapping
whose entry comes from the LAST such row; the duplication gets no dedicated
violation — each row yields a sequence violation exactly when its suffix
differs from the running expected counter, which for a repeat inside an
otherwise `1..N`-sequential ledger fires on the repeated row (concrete
third conjunct), though not for every duplicate pattern. -/
theorem duplicate_id_claim :
    (∀ lines : List String, (parseAssetLedger (some lines)).assetIds.Nodup
      ∧ ((parseAssetLedger (some lines)).assetSources.map Prod.fst).Nodup)
  ∧ (∀ (lines : List String) (x : String),
      x ∈ (parseAssetLedger (some lines)).assetIds ↔ x ∈ dataRowIds lines)
  ∧ (∀ (lines : List String) (id : String),
      dictLookup id (parseAssetLedger (some lines)).assetSources = lastRowMeta id 1 lines)
  ∧ ((parseAssetLedger (some ["| asset-0001 | A | t | 01 |", "| asset-0002 | B | t | 02 |",
        "| asset-0002 | B2 | t | 03 |"])).violations
      = [seqViolation "asset-0002" 3 3]
    ∧ dictLookup "asset-0002" (parseAssetLedger (some ["| asset-0001 | A | t | 01 |",
        "| asset-0002 | B | t | 02 |", "| asset-0002 | B2 | t | 03 |"])).assetSources
      = some ⟨3, ["03"]⟩) := by
  refine ⟨?_, ?_, ?_, by decide⟩
  · intro lines
    constructor
    · exact runLedger_assetIds_nodup lines ⟨1, [], [], []⟩ 1 List.nodup_nil
    · exact runLedger_keys_nodup lines ⟨1, [], [], []⟩ 1 (by simp)
  · intro lines x
    have h := runLedger_mem_assetIds lines ⟨1, [], [], []⟩ 1 x
    simpa using h
  · intro lines id
    have h := runLedger_lookup id lines ⟨1, [], [], []⟩ 1
    show dictLookup id (runLedger ⟨1, [], [], []⟩ 1 lines).assetSources = lastRowMeta id 1 lines
    rw [h]
    cases lastRowMeta id 1 lines <;> simp [dictLookup]

/-- Counterexample to C10 as stated: in the ledger with rows `asset-0002`,
`asset-0001`, `asset-0002` the id `asset-0002` occurs on two rows, yet the
repeated row (line 3) carries NO violation at all — its suffix happens to
equal the expected counter there, so the duplication is not surfaced as a
sequence violation on the repeated row. -/
theorem duplicate_id_counterexample :
    (dataRowIds ["| asset-0002 | A | t | 01 |", "| asset-0001 | B | t | 01 |",
        "| asset-0002 | C | t | 01 |"]).count "asset-0002" = 2
  ∧ ∀ v ∈ (parseAssetLedger (some ["| asset-0002 | A | t | 01 |", "| asset-0001 | B | t | 01 |",
      "| asset-0002 | C | t | 01 |"])).violations, v.line ≠ some 3 := by decide

/-! ### Claims about the episode index (C4) -/

theorem processEpisodeEntry_fst (acc : List Violation × List String) (f : String) :
    (processEpisodeEntry acc f).1 = acc.1 ++ (episodeViolOf f).toList := by
  unfold processEpisodeEntry episodeViolOf
  by_cases ht : f ∈ TRIAD_FILES
  · simp [ht]
  · by_cases hfmt : isEpisodeNameChars f.data
    · by_cases hps : (startsWithChars "episode-".data f.data && endsWithChars ".md".data f.data) = true
      · by_cases hid : episodeIdPart f ≠ [] <;> simp [ht, hfmt, hps, hid]
      · simp [ht, hfmt, hps]
    · by_cases hps : (startsWithChars "episode-".data f.data && endsWithChars ".md".data f.data) = true
      · by_cases hid : episodeIdPart f ≠ [] <;> simp [ht, hfmt, hps, hid]
      · simp [ht, hfmt, hps]

theorem processEpisodeEntry_snd (acc : List Violation × List String) (f : String) (x : String) :
    x ∈ (processEpisodeEntry acc f).2 ↔ x ∈ acc.2 ∨ x ∈ (episodeIdOf f).toList := by
  unfold processEpisodeEntry episodeIdOf
  by_cases ht : f ∈ TRIAD_FILES
  · simp [ht]
  · by_cases hps : (startsWithChars "episode-".data f.data && endsWithChars ".md".data f.data) = true
    · by_cases hid : episodeIdPart f ≠ []
      · by_cases hfmt : isEpisodeNameChars f.data <;>
          simp [ht, hps, hid, hfmt, mem_setAdd, or_comm]
      · by_cases hfmt : isEpisodeNameChars f.data <;> simp [ht, hps, hid, hfmt]
    · by_cases hfmt : isEpisodeNameChars f.data <;> simp [ht, hps, hfmt]

theorem foldl_processEpisodeEntry_fst (files : List String) :
    ∀ acc : List Violation × List String,
      (files.foldl processEpisodeEntry acc).1 = acc.1 ++ files.filterMap episodeViolOf := by
  induction files with
  | nil => intro acc; simp
  | cons f files ih =>
    intro acc
    rw [List.foldl_cons, ih, processEpisodeEntry_fst, List.filterMap_cons]
    cases h : episodeViolOf f <;> simp [h]

theorem foldl_processEpisodeEntry_snd (files : List String) :
    ∀ (acc : List Violation × List String) (x : String),
      x ∈ (files.foldl processEpisodeEntry acc).2 ↔
        x ∈ acc.2 ∨ x ∈ files.filterMap episodeIdOf := by
  induction files with
  | nil => intro acc x; simp
  | cons f files ih =>
    intro acc x
    rw [List.foldl_cons, ih, processEpisodeEntry_snd, List.filterMap_cons]
    cases h : episodeIdOf f with
    | none => simp [h]
    | some v =>
      simp only [h, Option.toList_some, List.mem_singleton, List.mem_cons]
      tauto

/-- Claim C4, corrected: each non-triad file whose name fails the episode pattern
contributes exactly one format violation, in enumeration order, and the
scan continues past it; but such a file can still contribute an id — any
non-triad name with prefix `episode-` and suffix `.md` and a nonempty
middle contributes that middle to the id set (so `episode-123.md` yields a
format violation AND the id `123`). -/
theorem episode_format_claim :
    (∀ files : List String,
        (listEpisodeIds (some files)).1 = files.filterMap episodeViolOf)
  ∧ (∀ (files : List String) (x : String),
        x ∈ (listEpisodeIds (some files)).2 ↔ x ∈ files.filterMap episodeIdOf)
  ∧ ((listEpisodeIds (some ["episode-123.md"])).1 = [episodeViolation "episode-123.md"]
      ∧ (listEpisodeIds (some ["episode-123.md"])).2 = ["123"]) := by
  refine ⟨?_, ?_, by decide⟩
  · intro files
    have h := foldl_processEpisodeEntry_fst files ([], [])
    simpa using h
  · intro files x
    have h := foldl_processEpisodeEntry_snd files ([], []) x
    simpa using h

/-- Counterexample to C4 as stated: for the lone non-triad file
`episode-123.md`, which fails the `episode-NN.md` pattern, the scan emits
the format violation but nevertheless adds the id `123` to the returned
set. -/
theorem episode_format_counterexample :
    (listEpisodeIds (some ["episode-123.md"])).1.length = 1
  ∧ (listEpisodeIds (some ["episode-123.md"])).2 = ["123"] := by decide

/-! ### Claims about missing artifacts (C8) -/

/-- Claim C8: a missing ledger yields exactly one violation and empty id
set/mapping; a missing episode directory yields an empty id set and NO
violation; a missing prose file yields exactly one violation and no
reference scan; a missing outline yields exactly one violation and skips
the structure check; with every artifact absent the full validation yields
exactly those three missing-artifact violations, in check order. -/
theorem missing_artifact_claim :
    parseAssetLedger none = ⟨[missingLedgerViolation], [], []⟩
  ∧ listEpisodeIds none = ([], [])
  ∧ (∀ assetIds : List String, validateProseReferences none assetIds = [missingProseViolation])
  ∧ (∀ (prosePresent : Bool) (ss ps : List (String × Nat)),
      validateStructureOrder false prosePresent ss ps = [missingOutlineViolation])
  ∧ fsmValidate (some ⟨none, none, none, none⟩)
      = [missingLedgerViolation, missingProseViolation, missingOutlineViolation] :=
  ⟨rfl, rfl, fun _ => rfl, fun _ _ _ => rfl, by decide⟩

/-! ### Claims about determinism and traversal order (C9) -/

/-- Claim C9, corrected: validation is a pure function of the modelled tree
(identical trees — including identical episode-directory enumeration
order — give identical violation lists); but the episode scan iterates the
enumeration order as given, without sorting, so traversal is NOT forced to
be lexicographic: permuting the enumeration order of an otherwise unchanged
directory reorders (hence changes) the violation list. -/
theorem deterministic_traversal_claim :
    (∀ g1 g2 : Option UserGuide, g1 = g2 → fsmValidate g1 = fsmValidate g2)
  ∧ (["episode-bb.md", "episode-aa.md"] : List String).Perm
      ["episode-aa.md", "episode-bb.md"]
  ∧ fsmValidate (some ⟨none, some ["episode-bb.md", "episode-aa.md"], none, none⟩)
      ≠ fsmValidate (some ⟨none, some ["episode-aa.md", "episode-bb.md"], none, none⟩)
  ∧ (fsmValidate (some ⟨none, some ["episode-bb.md", "episode-aa.md"], none, none⟩)).map
        Violation.artifact
      = [ledgerArtifact, episodeArtifact "episode-bb.md", episodeArtifact "episode-aa.md",
          proseArtifact, outlineArtifact] := by
  refine ⟨?_, by decide, by decide, by decide⟩
  intro g1 g2 h
  rw [h]

/-- Witness for `deterministic_traversal_claim` at a concrete tree. -/
theorem deterministic_traversal_claim_witness :
    fsmValidate (some ⟨none, some ["episode-01.md"], none, none⟩)
      = fsmValidate (some ⟨none, some ["episode-01.md"], none, none⟩) :=
  deterministic_traversal_claim.1 _ _ rfl

/-- Counterexample to C9 as stated: two trees holding the same episode
files (the listings are permutations of each other) but enumerated in
different orders produce different ordered violation lists, so the
traversal is not performed in a deterministic lexicographic order. -/
theorem deterministic_traversal_counterexample :
    (["episode-bb.md", "episode-aa.md"] : List String).Perm
      ["episode-aa.md", "episode-bb.md"]
  ∧ fsmValidate (some ⟨none, some ["episode-bb.md", "episode-aa.md"], none, none⟩)
      ≠ fsmValidate (some ⟨none, some ["episode-aa.md", "episode-bb.md"], none, none⟩) := by
  exact ⟨by decide, by decide⟩

/-! ### Claims about the source-episode check (C7) -/

theorem string_eq_of_data {a b : String} (h : a.data = b.data) : a = b := by
  cases a; cases b; exact congrArg String.mk h

theorem isAssetIdChars_length {l : List Char} (h : isAssetIdChars l = true) :
    l.length = 10 := by
  obtain ⟨ds, rfl, hlen, -⟩ := isAssetIdChars_shape h
  simp [hlen]

theorem noSourceDetails_inj {a b : String} (h : noSourceDetails a = noSourceDetails b) :
    a = b := by
  have h2 : "Asset ".data ++ (a.data ++ " lists no Source Episode in LEDGER.md.".data) =
      "Asset ".data ++ (b.data ++ " lists no Source Episode in LEDGER.md.".data) := by
    have := congrArg String.data h
    simpa [noSourceDetails, String.data_append] using this
  have h3 := List.append_cancel_left h2
  exact string_eq_of_data (List.append_cancel_right h3)

theorem missingEpDetails_ep_inj {id e1 e2 : String}
    (h : missingEpDetails id e1 = missingEpDetails id e2) : e1 = e2 := by
  have h2 := congrArg String.data h
  simp only [missingEpDetails, String.data_append, List.append_assoc] at h2
  have h3 := List.append_cancel_left (List.append_cancel_left (List.append_cancel_left h2))
  exact string_eq_of_data (List.append_cancel_right h3)

theorem missingEpDetails_inj {a b : String} (ha : a.data.length = 10)
    (hb : b.data.length = 10) {e1 e2 : String}
    (h : missingEpDetails a e1 = missingEpDetails b e2) : a = b ∧ e1 = e2 := by
  have h2 := congrArg String.data h
  simp only [missingEpDetails, String.data_append, List.append_assoc] at h2
  have h3 := List.append_cancel_left h2
  obtain ⟨hab, htail⟩ := List.append_inj h3 (ha.trans hb.symm)
  refine ⟨string_eq_of_data hab, ?_⟩
  have h4 := List.append_cancel_left htail
  exact string_eq_of_data (List.append_cancel_right h4)

theorem missingEp_ne_noSource (a e b : String) :
    missingEpDetails a e ≠ noSourceDetails b := by
  intro h
  have h2 := congrArg (fun s => s.data.reverse[1]?) h
  simp only [missingEpDetails, noSourceDetails, String.data_append, List.append_assoc,
    List.reverse_append] at h2
  rw [List.getElem?_append_left (by decide), List.getElem?_append_left (by decide)] at h2
  exact absurd h2 (by decide)

/-- The shape of every violation produced for one asset entry. -/
theorem mem_assetEntryViols {eps : List String} {entry : String × AssetMeta} {v : Violation}
    (h : v ∈ assetEntryViols eps entry) :
    (entry.2.sources = [] ∧ v = noSourceViolation entry.1 entry.2.line) ∨
      (∃ ep ∈ entry.2.sources, ep ∉ eps ∧ v = missingEpViolation entry.1 ep entry.2.line) := by
  unfold assetEntryViols at h
  split at h
  · rename_i hs
    rw [List.mem_singleton] at h
    exact Or.inl ⟨hs, h⟩
  · rw [List.mem_filterMap] at h
    obtain ⟨ep, hep, hv⟩ := h
    right
    refine ⟨ep, hep, ?_⟩
    by_cases hin : ep ∈ eps
    · rw [if_neg (not_not_intro hin)] at hv
      exact absurd hv (by simp)
    · rw [if_pos hin] at hv
      injection hv with hv
      exact ⟨hin, hv.symm⟩

theorem countP_flatMap_zero {P : Violation → Bool} {eps : List String}
    {l : List (String × AssetMeta)}
    (h : ∀ entry ∈ l, ∀ v ∈ assetEntryViols eps entry, ¬P v = true) :
    (l.flatMap (assetEntryViols eps)).countP P = 0 := by
  rw [List.countP_eq_zero]
  intro v hv
  rw [List.mem_flatMap] at hv
  obtain ⟨entry, hentry, hv⟩ := hv
  exact h entry hentry v hv

theorem entry_noSource_zero {eps : List String} {id id2 : String} {m2 : AssetMeta}
    (hne : id2 ≠ id) :
    ∀ v ∈ assetEntryViols eps (id2, m2), ¬(v.details == noSourceDetails id) = true := by
  intro v hv
  rcases mem_assetEntryViols hv with ⟨-, rfl⟩ | ⟨ep, -, -, rfl⟩
  · simp only [noSourceViolation, beq_iff_eq]
    exact fun h => hne (noSourceDetails_inj h)
  · simp only [missingEpViolation, beq_iff_eq]
    exact missingEp_ne_noSource id2 ep id

theorem entry_missingEp_zero {eps : List String} {id id2 : String} {m2 : AssetMeta}
    (hne : id2 ≠ id) (hwf2 : isAssetIdChars id2.data = true)
    (hwfid : isAssetIdChars id.data = true) (ep : String) :
    ∀ v ∈ assetEntryViols eps (id2, m2), ¬(v.details == missingEpDetails id ep) = true := by
  intro v hv
  rcases mem_assetEntryViols hv with ⟨-, rfl⟩ | ⟨ep2, -, -, rfl⟩
  · simp only [noSourceViolation, beq_iff_eq]
    exact fun h => missingEp_ne_noSource id ep id2 h.symm
  · simp only [missingEpViolation, beq_iff_eq]
    intro h
    exact hne (missingEpDetails_inj (isAssetIdChars_length hwf2)
      (isAssetIdChars_length hwfid) h).1

theorem countP_missingEp_filterMap (id : String) (ln : Nat) (eps : List String) (ep : String) :
    ∀ sources : List String, sources.Nodup →
      ((sources.filterMap
          (fun s => if s ∉ eps then some (missingEpViolation id s ln) else none)).countP
        (fun v => v.details == missingEpDetails id ep))
        = if ep ∈ sources ∧ ep ∉ eps then 1 else 0 := by
  intro sources
  induction sources with
  | nil => intro _; simp
  | cons s rest ih =>
    intro hnd
    rw [List.nodup_cons] at hnd
    obtain ⟨hs, hnd⟩ := hnd
    rw [List.filterMap_cons]
    by_cases hin : s ∈ eps
    · rw [if_neg (not_not_intro hin), ih hnd]
      by_cases heq : ep = s
      · subst heq
        simp [hin, hs]
      · simp only [List.mem_cons]
        have : (ep = s ∨ ep ∈ rest) ∧ ep ∉ eps ↔ ep ∈ rest ∧ ep ∉ eps := by
          constructor
          · rintro ⟨hm | hm, hout⟩
            · exact absurd hm heq
            · exact ⟨hm, hout⟩
          · exact fun ⟨hm, hout⟩ => ⟨Or.inr hm, hout⟩
        rw [if_congr this rfl rfl]
    · rw [if_pos hin, List.countP_cons, ih hnd]
      by_cases heq : ep = s
      · subst heq
        have hP : ((missingEpViolation id ep ln).details == missingEpDetails id ep) = true := by
          simp [missingEpViolation]
        rw [hP, if_neg (fun h : ep ∈ rest ∧ ep ∉ eps => hs h.1)]
        simp [hin]
      · have hP : ((missingEpViolation id s ln).details == missingEpDetails id ep) = false := by
          simp only [missingEpViolation, beq_eq_false_iff_ne, ne_eq]
          exact fun h => heq (missingEpDetails_ep_inj h).symm
        rw [hP]
        simp only [List.mem_cons]
        have : (ep = s ∨ ep ∈ rest) ∧ ep ∉ eps ↔ ep ∈ rest ∧ ep ∉ eps := by
          constructor
          · rintro ⟨hm | hm, hout⟩
            · exact absurd hm heq
            · exact ⟨hm, hout⟩
          · exact fun ⟨hm, hout⟩ => ⟨Or.inr hm, hout⟩
        rw [if_congr this rfl rfl]
        simp

theorem entry_noSource_zero_self {eps : List String} {id : String} {m : AssetMeta}
    (hne : m.sources ≠ []) :
    ∀ v ∈ assetEntryViols eps (id, m), ¬(v.details == noSourceDetails id) = true := by
  intro v hv
  rcases mem_assetEntryViols hv with ⟨hs, -⟩ | ⟨ep, -, -, rfl⟩
  · exact absurd hs hne
  · simp only [missingEpViolation, beq_iff_eq]
    exact missingEp_ne_noSource id ep id

/-- Claim C7: for every asset entry of the mapping (keys well-formed and unique),
an empty source list yields exactly one `lists no Source Episode` violation
carrying the asset's ledger line and no missing-episode violation for any
episode; a nonempty (duplicate-free) source list yields no empty-source
violation and exactly one violation per declared episode absent from the
episode index, each carrying the asset's ledger line. -/
theorem asset_sources_claim :
    ∀ (srcs : List (String × AssetMeta)) (eps : List String) (id : String) (meta : AssetMeta),
      (∀ k ∈ srcs.map Prod.fst, isAssetIdChars k.data = true) →
      (srcs.map Prod.fst).Nodup →
      (id, meta) ∈ srcs →
      (meta.sources = [] →
          (validateAssetSources srcs eps).countP (fun v => v.details == noSourceDetails id) = 1
        ∧ (∀ ep, (validateAssetSources srcs eps).countP
              (fun v => v.details == missingEpDetails id ep) = 0)
        ∧ ∃ v ∈ validateAssetSources srcs eps,
            v.details = noSourceDetails id ∧ v.line = some meta.line)
    ∧ (meta.sources ≠ [] → meta.sources.Nodup →
          (validateAssetSources srcs eps).countP (fun v => v.details == noSourceDetails id) = 0
        ∧ (∀ ep, (validateAssetSources srcs eps).countP
              (fun v => v.details == missingEpDetails id ep)
            = if ep ∈ meta.sources ∧ ep ∉ eps then 1 else 0)
        ∧ (∀ ep ∈ meta.sources, ep ∉ eps →
            ∃ v ∈ validateAssetSources srcs eps,
              v.details = missingEpDetails id ep ∧ v.line = some meta.line)) := by
  intro srcs eps id meta hkwf hknd hmem
  obtain ⟨pre, post, rfl⟩ := List.append_of_mem hmem
  have hwfid : isAssetIdChars id.data = true := by
    refine hkwf id ?_
    simp
  have hknd' := hknd
  rw [List.map_append, List.map_cons, List.nodup_append] at hknd'
  obtain ⟨hndpre, hndcons, hdisj⟩ := hknd'
  rw [List.nodup_cons] at hndcons
  obtain ⟨hidpost, hndpost⟩ := hndcons
  have hidpre : id ∉ pre.map Prod.fst := fun h => hdisj h (by simp)
  have hsplit : validateAssetSources (pre ++ (id, meta) :: post) eps =
      pre.flatMap (assetEntryViols eps) ++ (assetEntryViols eps (id, meta) ++
        post.flatMap (assetEntryViols eps)) := by
    unfold validateAssetSources
    rw [List.flatMap_append, List.flatMap_cons]
  have hprewf : ∀ k ∈ pre.map Prod.fst, isAssetIdChars k.data = true := by
    intro k hk
    refine hkwf k ?_
    rw [List.map_append]
    exact List.mem_append_left _ hk
  have hpostwf : ∀ k ∈ post.map Prod.fst, isAssetIdChars k.data = true := by
    intro k hk
    refine hkwf k ?_
    rw [List.map_append, List.map_cons]
    refine List.mem_append_right _ ?_
    exact List.mem_cons_of_mem _ hk
  have hpre0 : ∀ ep, (pre.flatMap (assetEntryViols eps)).countP
      (fun v => v.details == missingEpDetails id ep) = 0 := by
    intro ep
    refine countP_flatMap_zero ?_
    rintro ⟨k, m⟩ hk v hv
    have hne : k ≠ id := by
      intro h
      subst h
      exact hidpre (by simpa using List.mem_map_of_mem Prod.fst hk)
    exact entry_missingEp_zero hne (hprewf k (List.mem_map_of_mem Prod.fst hk)) hwfid ep v hv
  have hpost0 : ∀ ep, (post.flatMap (assetEntryViols eps)).countP
      (fun v => v.details == missingEpDetails id ep) = 0 := by
    intro ep
    refine countP_flatMap_zero ?_
    rintro ⟨k, m⟩ hk v hv
    have hne : k ≠ id := by
      intro h
      subst h
      exact hidpost (by simpa using List.mem_map_of_mem Prod.fst hk)
    exact entry_missingEp_zero hne (hpostwf k (List.mem_map_of_mem Prod.fst hk)) hwfid ep v hv
  have hpre0n : (pre.flatMap (assetEntryViols eps)).countP
      (fun v => v.details == noSourceDetails id) = 0 := by
    refine countP_flatMap_zero ?_
    rintro ⟨k, m⟩ hk v hv
    have hne : k ≠ id := by
      intro h
      subst h
      exact hidpre (by simpa using List.mem_map_of_mem Prod.fst hk)
    exact entry_noSource_zero hne v hv
  have hpost0n : (post.flatMap (assetEntryViols eps)).countP
      (fun v => v.details == noSourceDetails id) = 0 := by
    refine countP_flatMap_zero ?_
    rintro ⟨k, m⟩ hk v hv
    have hne : k ≠ id := by
      intro h
      subst h
      exact hidpost (by simpa using List.mem_map_of_mem Prod.fst hk)
    exact entry_noSource_zero hne v hv
  constructor
  · intro hempty
    have hself : assetEntryViols eps (id, meta) = [noSourceViolation id meta.line] := by
      unfold assetEntryViols
      rw [if_pos hempty]
    refine ⟨?_, ?_, ?_⟩
    · rw [hsplit, List.countP_append, List.countP_append, hpre0n, hpost0n, hself]
      simp [noSourceViolation]
    · intro ep
      rw [hsplit, List.countP_append, List.countP_append, hpre0 ep, hpost0 ep, hself]
      have : ((noSourceViolation id meta.line).details == missingEpDetails id ep) = false := by
        simp only [noSourceViolation, beq_eq_false_iff_ne, ne_eq]
        exact fun h => missingEp_ne_noSource id ep id h.symm
      simp [this]
    · refine ⟨noSourceViolation id meta.line, ?_, rfl, rfl⟩
      rw [hsplit]
      refine List.mem_append_right _ (List.mem_append_left _ ?_)
      rw [hself]
      exact List.mem_singleton.mpr rfl
  · intro hne hnd
    have hself : assetEntryViols eps (id, meta) = meta.sources.filterMap
        (fun ep => if ep ∉ eps then some (missingEpViolation id ep meta.line) else none) := by
      unfold assetEntryViols
      rw [if_neg hne]
    refine ⟨?_, ?_, ?_⟩
    · rw [hsplit, List.countP_append, List.countP_append, hpre0n, hpost0n]
      have : (assetEntryViols eps (id, meta)).countP
          (fun v => v.details == noSourceDetails id) = 0 := by
        rw [List.countP_eq_zero]
        exact entry_noSource_zero_self hne
      simp [this]
    · intro ep
      rw [hsplit, List.countP_append, List.countP_append, hpre0 ep, hpost0 ep, hself,
        countP_missingEp_filterMap id meta.line eps ep meta.sources hnd]
      simp
    · intro ep hep hout
      refine ⟨missingEpViolation id ep meta.line, ?_, rfl, rfl⟩
      rw [hsplit]
      refine List.mem_append_right _ (List.mem_append_left _ ?_)
      rw [hself, List.mem_filterMap]
      exact ⟨ep, hep, by rw [if_pos hout]⟩

/-- Witness for `asset_sources_claim`: one asset with sources `01, 99` when
only `01` exists, one asset with no sources. -/
theorem asset_sources_claim_witness :
    ((validateAssetSources [("asset-0001", ⟨5, ["01", "99"]⟩)] ["01"]).countP
        (fun v => v.details == missingEpDetails "asset-0001" "99") = 1
      ∧ (validateAssetSources [("asset-0001", ⟨5, ["01", "99"]⟩)] ["01"]).countP
          (fun v => v.details == missingEpDetails "asset-0001" "01") = 0)
  ∧ (validateAssetSources [("asset-0002", ⟨6, []⟩)] ["01"]).countP
      (fun v => v.details == noSourceDetails "asset-0002") = 1 := by
  have h1 := (asset_sources_claim [("asset-0001", ⟨5, ["01", "99"]⟩)] ["01"]
    "asset-0001" ⟨5, ["01", "99"]⟩ (by decide) (by decide) (by decide)).2
    (by decide) (by decide)
  have h2 := (asset_sources_claim [("asset-0002", ⟨6, []⟩)] ["01"]
    "asset-0002" ⟨6, []⟩ (by decide) (by decide) (by decide)).1 (by decide)
  refine ⟨⟨?_, ?_⟩, ?_⟩
  · rw [h1.2.1 "99"]
    decide
  · rw [h1.2.1 "01"]
    decide
  · exact h2.1

/-! ### Claims about the reference scanner (C6) -/

theorem prDetails_inj {a b : String} (h : prDetails a = prDetails b) : a = b := by
  have h2 : "Prose references ".data ++
      (a.data ++ " which is not registered in assets/LEDGER.md.".data) =
      "Prose references ".data ++
      (b.data ++ " which is not registered in assets/LEDGER.md.".data) := by
    have := congrArg String.data h
    simpa [prDetails, String.data_append] using this
  have h3 := List.append_cancel_left h2
  exact string_eq_of_data (List.append_cancel_right h3)

theorem prViolation_beq_self (id : String) (n : Nat) :
    ((prViolation id n).details == prDetails id) = true := by
  simp [prViolation]

theorem prViolation_beq_ne {t id : String} (h : t ≠ id) (n : Nat) :
    ((prViolation t n).details == prDetails id) = false := by
  simp only [prViolation, beq_eq_false_iff_ne, ne_eq]
  exact fun h2 => h (prDetails_inj h2)

theorem prFold_invariant (ids : List String) (id : String) (n : Nat) (toks : List String) :
    ∀ st : PRState,
      (id ∈ (toks.foldl (prToken ids n) st).missing ↔
        id ∈ st.missing ∨ (id ∉ ids ∧ id ∈ toks))
    ∧ ((toks.foldl (prToken ids n) st).viols.countP (fun v => v.details == prDetails id) =
        st.viols.countP (fun v => v.details == prDetails id) +
          (if id ∈ ids ∨ id ∈ st.missing ∨ id ∉ toks then 0 else 1))
    ∧ (∀ v ∈ (toks.foldl (prToken ids n) st).viols,
        (v.details == prDetails id) = true →
          v ∈ st.viols ∨ (id ∉ ids ∧ id ∉ st.missing ∧ id ∈ toks ∧ v.line = some n)) := by
  induction toks with
  | nil =>
    intro st
    refine ⟨by simp, by simp, ?_⟩
    intro v hv hP
    exact Or.inl hv
  | cons t ts ih =>
    intro st
    rw [List.foldl_cons]
    by_cases hc : t ∉ ids ∧ t ∉ st.missing
    · have hst' : prToken ids n st t =
          ⟨st.missing ++ [t], st.viols ++ [prViolation t n]⟩ := by
        unfold prToken
        rw [if_pos hc]
      rw [hst']
      obtain ⟨ih1, ih2, ih3⟩ := ih ⟨st.missing ++ [t], st.viols ++ [prViolation t n]⟩
      by_cases hti : t = id
      · subst hti
        have hmem : t ∈ st.missing ++ [t] := by simp
        refine ⟨?_, ?_, ?_⟩
        · rw [ih1]
          simp [hmem, hc.1]
        · rw [ih2]
          rw [List.countP_append]
          simp only [List.countP_singleton, prViolation_beq_self, if_true]
          have hl : t ∈ t :: ts := List.mem_cons_self t ts
          simp [hmem, hc.1, hc.2, hl]
        · intro v hv hP
          rcases ih3 v hv hP with hin | ⟨-, hmiss, -, -⟩
          · rw [List.mem_append, List.mem_singleton] at hin
            rcases hin with hin | rfl
            · exact Or.inl hin
            · exact Or.inr ⟨hc.1, hc.2, List.mem_cons_self t ts, rfl⟩
          · exact absurd hmem hmiss
      · have hmem : id ∈ st.missing ++ [t] ↔ id ∈ st.missing := by
          rw [List.mem_append, List.mem_singleton]
          constructor
          · rintro (h | rfl)
            · exact h
            · exact absurd rfl hti
          · exact Or.inl
        have hcount : (st.viols ++ [prViolation t n]).countP
            (fun v => v.details == prDetails id) =
            st.viols.countP (fun v => v.details == prDetails id) := by
          rw [List.countP_append]
          simp [prViolation_beq_ne hti n]
        have htid : id ∈ t :: ts ↔ id ∈ ts := by
          rw [List.mem_cons]
          constructor
          · rintro (rfl | h)
            · exact absurd rfl hti
            · exact h
          · exact Or.inr
        refine ⟨?_, ?_, ?_⟩
        · simp only [ih1, hmem, htid]
        · simp only [ih2, hcount, hmem, htid]
        · intro v hv hP
          rcases ih3 v hv hP with hin | ⟨hids, hmiss, hts, hline⟩
          · rw [List.mem_append, List.mem_singleton] at hin
            rcases hin with hin | rfl
            · exact Or.inl hin
            · rw [prViolation_beq_ne hti n] at hP
              exact absurd hP (by simp)
          · have hm2 : id ∉ st.missing := fun h => hmiss (List.mem_append_left _ h)
            exact Or.inr ⟨hids, hm2, htid.mpr hts, hline⟩
    · have hst' : prToken ids n st t = st := by
        unfold prToken
        rw [if_neg hc]
      rw [hst']
      obtain ⟨ih1, ih2, ih3⟩ := ih st
      push_neg at hc
      refine ⟨?_, ?_, ?_⟩
      · rw [ih1]
        constructor
        · rintro (h | ⟨hids, hts⟩)
          · exact Or.inl h
          · exact Or.inr ⟨hids, List.mem_cons_of_mem t hts⟩
        · rintro (h | ⟨hids, hts⟩)
          · exact Or.inl h
          · rw [List.mem_cons] at hts
            rcases hts with rfl | hts
            · exact Or.inl (hc hids)
            · exact Or.inr ⟨hids, hts⟩
      · rw [ih2]
        by_cases h1 : id ∈ ids
        · simp [h1]
        · by_cases h2 : id ∈ st.missing
          · simp [h2]
          · have h3 : id ∈ ts ↔ id ∈ t :: ts := by
              rw [List.mem_cons]
              constructor
              · exact Or.inr
              · rintro (rfl | h)
                · exact absurd (hc h1) h2
                · exact h
            simp only [h1, h2, false_or, ← h3]
      · intro v hv hP
        rcases ih3 v hv hP with hin | ⟨hids, hmiss, hts, hline⟩
        · exact Or.inl hin
        · exact Or.inr ⟨hids, hmiss, List.mem_cons_of_mem t hts, hline⟩

theorem prLines_invariant (ids : List String) (id : String) (ls : List String) :
    ∀ (n : Nat) (st : PRState),
      ((prLines ids n ls st).viols.countP (fun v => v.details == prDetails id) =
        st.viols.countP (fun v => v.details == prDetails id) +
          (if id ∈ ids ∨ id ∈ st.missing ∨ firstOcc id n ls = none then 0 else 1))
    ∧ (∀ v ∈ (prLines ids n ls st).viols,
        (v.details == prDetails id) = true →
          v ∈ st.viols ∨ (id ∉ ids ∧ id ∉ st.missing ∧
            ∃ m, firstOcc id n ls = some m ∧ v.line = some m)) := by
  induction ls with
  | nil =>
    intro n st
    refine ⟨by simp [prLines, firstOcc], ?_⟩
    intro v hv hP
    exact Or.inl hv
  | cons l ls ih =>
    intro n st
    rw [prLines, prLine]
    obtain ⟨i1, i2, i3⟩ := prFold_invariant ids id n (scanRefs l.data) st
    obtain ⟨o1, o2⟩ := ih (n + 1) ((scanRefs l.data).foldl (prToken ids n) st)
    have hfo : firstOcc id n (l :: ls) =
        if id ∈ scanRefs l.data then some n else firstOcc id (n + 1) ls := rfl
    constructor
    · rw [o1, i2, hfo]
      by_cases h1 : id ∈ ids
      · simp [h1]
      · by_cases h2 : id ∈ st.missing
        · have h2' : id ∈ ((scanRefs l.data).foldl (prToken ids n) st).missing :=
            i1.mpr (Or.inl h2)
          simp [h1, h2, h2']
        · by_cases h3 : id ∈ scanRefs l.data
          · have h2' : id ∈ ((scanRefs l.data).foldl (prToken ids n) st).missing :=
              i1.mpr (Or.inr ⟨h1, h3⟩)
            simp [h1, h2, h3, h2']
          · have h2' : id ∉ ((scanRefs l.data).foldl (prToken ids n) st).missing := by
              rw [i1]
              rintro (h | ⟨-, h⟩)
              · exact h2 h
              · exact h3 h
            simp [h1, h2, h3, h2']
    · intro v hv hP
      rcases o2 v hv hP with hin | ⟨hids, hmiss1, m, hm, hline⟩
      · rcases i3 v hin hP with hin2 | ⟨hids, hmiss, hscan, hline⟩
        · exact Or.inl hin2
        · refine Or.inr ⟨hids, hmiss, n, ?_, hline⟩
          rw [hfo, if_pos hscan]
      · have hmiss : id ∉ st.missing := fun h => hmiss1 (i1.mpr (Or.inl h))
        have hscan : id ∉ scanRefs l.data := fun h => hmiss1 (i1.mpr (Or.inr ⟨hids, h⟩))
        refine Or.inr ⟨hids, hmiss, m, ?_, hline⟩
        rw [hfo, if_neg hscan]
        exact hm

/-- Claim C6: for every prose document, id set and token, scanning reports an
unknown token exactly once (zero times if the token is registered or never
occurs), and any reported violation for that token carries the line number
of the token's first occurrence in the document. -/
theorem prose_reference_claim :
    ∀ (lines ids : List String) (id : String),
      ((id ∉ ids ∧ firstOcc id 1 lines ≠ none) →
        (validateProseReferences (some lines) ids).countP
          (fun v => v.details == prDetails id) = 1)
    ∧ ((id ∈ ids ∨ firstOcc id 1 lines = none) →
        (validateProseReferences (some lines) ids).countP
          (fun v => v.details == prDetails id) = 0)
    ∧ (∀ v ∈ validateProseReferences (some lines) ids,
        (v.details == prDetails id) = true →
          ∃ m, firstOcc id 1 lines = some m ∧ v.line = some m) := by
  intro lines ids id
  obtain ⟨h1, h2⟩ := prLines_invariant ids id lines 1 ⟨[], []⟩
  have hout : validateProseReferences (some lines) ids =
      (prLines ids 1 lines ⟨[], []⟩).viols := rfl
  refine ⟨?_, ?_, ?_⟩
  · intro ⟨hids, hocc⟩
    rw [hout, h1]
    simp [hids, hocc]
  · intro h
    rw [hout, h1]
    rcases h with h | h
    · simp [h]
    · simp [h]
  · intro v hv hP
    rw [hout] at hv
    rcases h2 v hv hP with hin | ⟨-, -, m, hm, hline⟩
    · exact absurd hin (List.not_mem_nil v)
    · exact ⟨m, hm, hline⟩

/-- Witness for `prose_reference_claim`: a document mentioning the
unregistered `asset-9999` on lines 1, 2 and 3 yields exactly one violation,
attributed to line 1; the registered `asset-0001` yields none. -/
theorem prose_reference_claim_witness :
    (validateProseReferences (some ["a asset-9999 and asset-0001", "b asset-9999",
        "c asset-9999"]) ["asset-0001"]).countP
      (fun v => v.details == prDetails "asset-9999") = 1
  ∧ (validateProseReferences (some ["a asset-9999 and asset-0001", "b asset-9999",
        "c asset-9999"]) ["asset-0001"]).countP
      (fun v => v.details == prDetails "asset-0001") = 0
  ∧ ∃ m, firstOcc "asset-9999" 1 ["a asset-9999 and asset-0001", "b asset-9999",
        "c asset-9999"] = some m
      ∧ (prViolation "asset-9999" 1).line = some m :=
  ⟨(prose_reference_claim ["a asset-9999 and asset-0001", "b asset-9999", "c asset-9999"]
      ["asset-0001"] "asset-9999").1 (by decide),
   (prose_reference_claim ["a asset-9999 and asset-0001", "b asset-9999", "c asset-9999"]
      ["asset-0001"] "asset-0001").2.1 (Or.inl (by decide)),
   (prose_reference_claim ["a asset-9999 and asset-0001", "b asset-9999", "c asset-9999"]
      ["asset-0001"] "asset-9999").2.2 (prViolation "asset-9999" 1)
     (by decide) (by decide)⟩

/-! ### Claims about the structure-order check (C1) -/

theorem findSection_cons_self (name : String) (ln : Nat) (rest : List (String × Nat)) (i : Nat) :
    findSection name ((name, ln) :: rest) i = some (i, ln) := by
  simp [findSection]

theorem findSection_append (name : String) (as_ bs : List (String × Nat))
    (h : name ∉ as_.map Prod.fst) :
    ∀ i, findSection name (as_ ++ bs) i = findSection name bs (i + as_.length) := by
  induction as_ with
  | nil => intro i; simp
  | cons p as_ ih =>
    intro i
    obtain ⟨n2, ln⟩ := p
    rw [List.map_cons, List.mem_cons] at h
    push_neg at h
    obtain ⟨hne, h⟩ := h
    rw [List.cons_append, findSection, if_neg (fun hh => hne hh.symm), ih h]
    congr 1
    simp
    omega

theorem structOrderLoop_cons_found {ps : List (String × Nat)} {name : String}
    {idx fline : Nat} (h : findSection name ps 0 = some (idx, fline))
    (sline : Nat) (last : Int) (rest : List (String × Nat)) :
    structOrderLoop ps last ((name, sline) :: rest) =
      (if (idx : Int) ≤ last then [outOfOrderViolation name fline] else []) ++
        structOrderLoop ps (idx : Int) rest := by
  rw [structOrderLoop, h]

/-- Claim C1, corrected: outline `[Intro, Background, Conclusion]` against prose
headings whose first occurrences of the three names appear in that relative
order (with arbitrary other headings interleaved) yields zero structure
violations; for prose order `[Conclusion, Intro, Background]` the single
out-of-order violation is for `Conclusion` (found at index 0 after Intro
and Background matched at indices 1 and 2), not for Intro; and the matcher
compares each section's first prose index against the LAST found index
(updated even after a violation), not against the highest index matched so
far — prose `[Background, Conclusion, Intro]` flags only `Background`,
while `Conclusion` (index 1, below the highest matched index 2) passes. -/
theorem structure_order_claim :
    (∀ (xs ys zs ws : List (String × Nat)) (l1 l2 l3 p1 p2 p3 : Nat),
      "Intro" ∉ xs.map Prod.fst →
      "Background" ∉ (xs ++ ys).map Prod.fst →
      "Conclusion" ∉ (xs ++ ys ++ zs).map Prod.fst →
      validateStructureOrder true true
        [("Intro", l1), ("Background", l2), ("Conclusion", l3)]
        (((xs ++ (("Intro", p1) :: ys)) ++ (("Background", p2) :: zs)) ++
          (("Conclusion", p3) :: ws))
        = [])
  ∧ (validateStructureOrder true true
        [("Intro", 2), ("Background", 3), ("Conclusion", 4)]
        [("Conclusion", 4), ("Intro", 5), ("Background", 6)]
        = [outOfOrderViolation "Conclusion" 4])
  ∧ (validateStructureOrder true true
        [("Intro", 2), ("Background", 3), ("Conclusion", 4)]
        [("Background", 4), ("Conclusion", 5), ("Intro", 6)]
        = [outOfOrderViolation "Background" 4]) := by
  refine ⟨?_, by decide, by decide⟩
  intro xs ys zs ws l1 l2 l3 p1 p2 p3 hI hB hC
  have hB' : "Background" ∉ (xs ++ (("Intro", p1) :: ys)).map Prod.fst := by
    rw [List.map_append, List.mem_append] at hB ⊢
    rw [List.map_cons, List.mem_cons]
    rintro (h | h | h)
    · exact hB (Or.inl h)
    · have h2 : ("Background" : String) = "Intro" := h
      exact absurd h2 (by decide)
    · exact hB (Or.inr h)
  have hC' : "Conclusion" ∉
      ((xs ++ (("Intro", p1) :: ys)) ++ (("Background", p2) :: zs)).map Prod.fst := by
    rw [List.map_append, List.mem_append] at hC
    rw [List.map_append, List.mem_append] at hC
    rw [List.map_append, List.mem_append, List.map_append, List.mem_append, List.map_cons,
      List.mem_cons, List.map_cons, List.mem_cons]
    rintro ((h | h | h) | h | h)
    · exact hC (Or.inl (Or.inl h))
    · have h2 : ("Conclusion" : String) = "Intro" := h
      exact absurd h2 (by decide)
    · exact hC (Or.inl (Or.inr h))
    · have h2 : ("Conclusion" : String) = "Background" := h
      exact absurd h2 (by decide)
    · exact hC (Or.inr h)
  have hfI : findSection "Intro"
      (((xs ++ (("Intro", p1) :: ys)) ++ (("Background", p2) :: zs)) ++
        (("Conclusion", p3) :: ws)) 0
      = some (xs.length, p1) := by
    have hassoc : ((xs ++ (("Intro", p1) :: ys)) ++ (("Background", p2) :: zs)) ++
          (("Conclusion", p3) :: ws)
        = xs ++ (("Intro", p1) :: (ys ++ ((("Background", p2) :: zs) ++
            (("Conclusion", p3) :: ws)))) := by
      simp
    rw [hassoc, findSection_append "Intro" xs _ hI 0, findSection_cons_self]
    simp only [Option.some.injEq, Prod.mk.injEq, List.length_append, List.length_cons]
    exact ⟨by omega, trivial⟩
  have hfB : findSection "Background"
      (((xs ++ (("Intro", p1) :: ys)) ++ (("Background", p2) :: zs)) ++
        (("Conclusion", p3) :: ws)) 0
      = some (xs.length + ys.length + 1, p2) := by
    have hassoc : ((xs ++ (("Intro", p1) :: ys)) ++ (("Background", p2) :: zs)) ++
          (("Conclusion", p3) :: ws)
        = (xs ++ (("Intro", p1) :: ys)) ++
            (("Background", p2) :: (zs ++ (("Conclusion", p3) :: ws))) := by
      simp
    rw [hassoc, findSection_append "Background" _ _ hB' 0, findSection_cons_self]
    simp only [Option.some.injEq, Prod.mk.injEq, List.length_append, List.length_cons]
    exact ⟨by omega, trivial⟩
  have hfC : findSection "Conclusion"
      (((xs ++ (("Intro", p1) :: ys)) ++ (("Background", p2) :: zs)) ++
        (("Conclusion", p3) :: ws)) 0
      = some (xs.length + ys.length + zs.length + 2, p3) := by
    rw [findSection_append "Conclusion" _ _ hC' 0, findSection_cons_self]
    simp only [Option.some.injEq, Prod.mk.injEq, List.length_append, List.length_cons]
    exact ⟨by omega, trivial⟩
  show structOrderLoop _ (-1) _ = []
  rw [structOrderLoop_cons_found hfI l1 (-1),
    if_neg (by omega : ¬((xs.length : Int) ≤ -1)),
    structOrderLoop_cons_found hfB l2 (xs.length : Int),
    if_neg (by omega : ¬(((xs.length + ys.length + 1 : Nat) : Int) ≤ (xs.length : Int))),
    structOrderLoop_cons_found hfC l3 ((xs.length + ys.length + 1 : Nat) : Int),
    if_neg (by omega : ¬(((xs.length + ys.length + zs.length + 2 : Nat) : Int) ≤
      ((xs.length + ys.length + 1 : Nat) : Int)))]
  simp [structOrderLoop]

/-- Witness for `structure_order_claim`: one interleaving with extra
headings before, inside and after the declared sequence. -/
theorem structure_order_claim_witness :
    validateStructureOrder true true
      [("Intro", 2), ("Background", 3), ("Conclusion", 4)]
      [("Preface", 2), ("Intro", 4), ("Background", 6), ("Aside", 8), ("Conclusion", 10),
        ("Appendix", 12)]
      = [] :=
  structure_order_claim.1 [("Preface", 2)] [] [("Aside", 8)] [("Appendix", 12)]
    2 3 4 4 6 10 (by decide) (by decide) (by decide)

/-- Counterexample to C1 as stated: for prose heading order
`[Conclusion, Intro, Background]` the single violation is attributed to
`Conclusion`, and no out-of-order violation for `Intro` is produced. -/
theorem structure_order_counterexample :
    (validateStructureOrder true true
        [("Intro", 2), ("Background", 3), ("Conclusion", 4)]
        [("Conclusion", 4), ("Intro", 5), ("Background", 6)]).length = 1
  ∧ outOfOrderViolation "Conclusion" 4 ∈ validateStructureOrder true true
      [("Intro", 2), ("Background", 3), ("Conclusion", 4)]
      [("Conclusion", 4), ("Intro", 5), ("Background", 6)]
  ∧ ∀ v ∈ validateStructureOrder true true
      [("Intro", 2), ("Background", 3), ("Conclusion", 4)]
      [("Conclusion", 4), ("Intro", 5), ("Background", 6)],
      v.details ≠ outOfOrderDetails "Intro" := by decide

end Canonic
